import Mathlib

/-!
# BurpSuiteTeamServer, package chatapi: certificate generation (genCrt.go)

A shallow embedding of `chatapi/genCrt.go` and of the parts of the Go standard
library whose behaviour the properties below depend on:

* `encoding/asn1` marshalling of the `PKCS8Key` structure (DER writer);
* `strings.Split` on the host list, `net.ParseIP` for IPv4 addresses;
* `time.Time.Format`, `time.Parse`, `time.Date`, `Time.Add`, `Time.Sub` for
  the layout `"Mon Jan _2 15:04:05 2006"`, on texts as lists of characters;
* `os.Stat`, `os.Create`, `os.OpenFile` on a map from file names to files.

Library calls whose results are random or opaque (`rsa.GenerateKey`,
`rand.Int`, `x509.MarshalPKCS1PrivateKey`, `x509.CreateCertificate`,
`pem.Encode`, the IPv6 half of `net.ParseIP`, failures of the operating
system) are fields of an environment record `Env`; every theorem quantifies
over all environments.

Go strings are Lean strings, bytes are natural numbers below 256, Go `int` is
`Int` (or `Nat` where the value is a length or an object-identifier arc).
-/

namespace chatapi

deriving instance DecidableEq for Except

/-! ## encoding/asn1: the DER writer used by `asn1.Marshal` -/

/-- Go `byte(i)` for an `int`, the low eight bits. -/
def byteOf (i : Int) : Nat := (i % 256).toNat

/-- Loop `for i > 255 { numBytes++; i >>= 8 }` of asn1 `lengthLength`; the
first argument bounds the number of iterations. -/
def lengthLengthLoop : Nat → Nat → Nat → Nat
  | 0, numBytes, _ => numBytes
  | fuel + 1, numBytes, i =>
    if i > 255 then lengthLengthLoop fuel (numBytes + 1) (i >>> 8) else numBytes

/-- Go asn1 `lengthLength(i)`: the number of bytes of the long-form length. -/
def lengthLength (i : Nat) : Nat := lengthLengthLoop i 1 i

/-- Loop `for ; n > 0; n-- { dst = append(dst, byte(i>>uint((n-1)*8))) }`. -/
def appendLengthLoop : Nat → Nat → List Nat
  | 0, _ => []
  | n + 1, i => ((i >>> (n * 8)) % 256) :: appendLengthLoop n i

/-- Go asn1 `appendLength(dst, i)`, as the bytes appended to `dst`. -/
def appendLength (i : Nat) : List Nat := appendLengthLoop (lengthLength i) i

/-- Loop `for i := n; i > 0; i >>= 7 { l++ }` of asn1 `base128IntLength`. -/
def base128IntLengthLoop : Nat → Nat → Nat → Nat
  | 0, l, _ => l
  | fuel + 1, l, i => if i > 0 then base128IntLengthLoop fuel (l + 1) (i >>> 7) else l

/-- Go asn1 `base128IntLength(n)`. -/
def base128IntLength (n : Nat) : Nat :=
  if n = 0 then 1 else base128IntLengthLoop n 0 n

/-- Loop of asn1 `appendBase128Int`: for `i` from `l-1` down to `0` append
`(n >> (i*7)) & 0x7f`, with bit `0x80` set unless `i = 0`. -/
def appendBase128IntLoop : Nat → Nat → List Nat
  | 0, _ => []
  | i + 1, n =>
    (((n >>> (i * 7)) &&& 0x7f) ||| (if i ≠ 0 then 0x80 else 0)) :: appendBase128IntLoop i n

/-- Go asn1 `appendBase128Int(dst, n)`, as the bytes appended to `dst`. -/
def appendBase128Int (n : Nat) : List Nat := appendBase128IntLoop (base128IntLength n) n

/-- ASN.1 universal tag numbers (`asn1.TagInteger` and so on). -/
def TagInteger : Nat := 2
/-- Tag `asn1.TagOctetString`. -/
def TagOctetString : Nat := 4
/-- Tag `asn1.TagOID`. -/
def TagOID : Nat := 6
/-- Tag `asn1.TagSequence`. -/
def TagSequence : Nat := 16

/-- Go asn1 `appendTagAndLength(dst, t)` for a universal-class tag: the
identifier octet(s) and the definite length, short form below 128 and long
form otherwise. -/
def appendTagAndLength (tag : Nat) (isCompound : Bool) (length : Nat) : List Nat :=
  let b : Nat := if isCompound then 0x20 else 0
  let ident : List Nat :=
    if tag ≥ 31 then (b ||| 0x1f) :: appendBase128Int tag else [b ||| tag]
  let len : List Nat :=
    if length ≥ 128 then (0x80 ||| (lengthLength length % 256)) :: appendLength length
    else [length % 256]
  ident ++ len

/-- One DER element: tag, length, body. -/
def taggedEncoder (tag : Nat) (isCompound : Bool) (body : List Nat) : List Nat :=
  appendTagAndLength tag isCompound body.length ++ body

/-- First loop `for i > 127 { numBytes++; i >>= 8 }` of asn1 `int64Length`. -/
def int64LengthHi : Nat → Nat → Int → Nat × Int
  | 0, numBytes, i => (numBytes, i)
  | fuel + 1, numBytes, i =>
    if i > 127 then int64LengthHi fuel (numBytes + 1) (i / 256) else (numBytes, i)

/-- Second loop `for i < -128 { numBytes++; i >>= 8 }` of asn1 `int64Length`. -/
def int64LengthLo : Nat → Nat → Int → Nat
  | 0, numBytes, _ => numBytes
  | fuel + 1, numBytes, i =>
    if i < -128 then int64LengthLo fuel (numBytes + 1) (i / 256) else numBytes

/-- Go asn1 `int64Length(i)`; the arithmetic shift `i >>= 8` is the floor
division by 256. -/
def int64Length (i : Int) : Nat :=
  let r := int64LengthHi i.natAbs 1 i
  int64LengthLo i.natAbs r.1 r.2

/-- Loop `for j := 0; j < n; j++ { dst[j] = byte(i >> uint((n-1-j)*8)) }` of
`int64Encoder.Encode`, indexed by the number of bytes still to write. -/
def int64EncodeLoop : Nat → Int → List Nat
  | 0, _ => []
  | n + 1, i => byteOf (i / (2 : Int) ^ (n * 8)) :: int64EncodeLoop n i

/-- Go asn1 `int64Encoder`: minimal big-endian two-complement bytes. -/
def int64Encode (i : Int) : List Nat := int64EncodeLoop (int64Length i) i

/-- Go asn1 `makeObjectIdentifier(oid)`: the body of an OBJECT IDENTIFIER, or
the structural error for an identifier that cannot be encoded. -/
def makeObjectIdentifier (oid : List Nat) : Except String (List Nat) :=
  match oid with
  | a :: b :: rest =>
    if a > 2 ∨ (a < 2 ∧ b ≥ 40) then .error "asn1: structure error: invalid object identifier"
    else .ok (appendBase128Int (a * 40 + b) ++ (rest.map appendBase128Int).flatten)
  | _ => .error "asn1: structure error: invalid object identifier"

/-- Go type `PKCS8Key` (genCrt.go lines 21-25). -/
structure PKCS8Key where
  Version : Int
  PrivateKeyAlgorithm : List (List Nat)
  PrivateKey : List Nat
deriving DecidableEq, Repr

/-- The elements of a slice of object identifiers, each marshalled as a
universal OBJECT IDENTIFIER. -/
def marshalOIDs : List (List Nat) → Except String (List Nat)
  | [] => .ok []
  | oid :: rest =>
    match makeObjectIdentifier oid with
    | .error err => .error err
    | .ok body =>
      match marshalOIDs rest with
      | .error err => .error err
      | .ok tail => .ok (taggedEncoder TagOID false body ++ tail)

/-- Go `asn1.Marshal(pkey)` for a value of type `PKCS8Key`: a SEQUENCE of the
three fields in declaration order, an `int` as INTEGER, a slice of object
identifiers as SEQUENCE OF OBJECT IDENTIFIER and a byte slice as OCTET STRING. -/
def asn1Marshal (pkey : PKCS8Key) : Except String (List Nat) :=
  match marshalOIDs pkey.PrivateKeyAlgorithm with
  | .error err => .error err
  | .ok oids =>
    .ok (taggedEncoder TagSequence true
      (taggedEncoder TagInteger false (int64Encode pkey.Version)
        ++ taggedEncoder TagSequence true oids
        ++ taggedEncoder TagOctetString false pkey.PrivateKey))

/-! ## time: instants, durations, and the layout "Mon Jan _2 15:04:05 2006" -/

/-- Go `time.Time` as far as this program observes it: the instant, as
seconds and nanoseconds since the Unix epoch, and the offset east of UTC, in
seconds, that the location of the value has at that instant. -/
structure Time where
  sec : Int
  nsec : Nat
  offset : Int
deriving DecidableEq, Repr

/-- Go `time.Second`, in nanoseconds (a `time.Duration` is an `int64` count
of nanoseconds). -/
def Second : Int := 1000000000
/-- Go `time.Hour`. -/
def Hour : Int := 3600 * Second
/-- Go `minDuration`, the smallest `int64`. -/
def minDuration : Int := -(2 ^ 63)
/-- Go `maxDuration`, the largest `int64`. -/
def maxDuration : Int := 2 ^ 63 - 1
/-- Go `unixToInternal`: seconds from January 1 of year 1 to the Unix epoch. -/
def unixToInternal : Int := 62135596800

/-- Go `(*Time).addSec(d)` on a value without monotonic reading: the seconds
since year 1 are an `int64`, and a sum that overflows saturates. -/
def addSec (sec d : Int) : Int :=
  let ext := sec + unixToInternal
  let sum := ext + d
  if minDuration ≤ sum ∧ sum ≤ maxDuration then sum - unixToInternal
  else if d > 0 then (2 ^ 63 - 1) - unixToInternal
  else -(2 ^ 63 - 1) - unixToInternal

/-- Go `Time.Add(d)`: `dsec := d / 1e9`, `nsec := t.nsec() + d % 1e9` with
Go's truncated division, then one carry or borrow into the seconds. -/
def Time.Add (t : Time) (d : Int) : Time :=
  let dsec := Int.tdiv d 1000000000
  let nsec : Int := (t.nsec : Int) + Int.tmod d 1000000000
  if nsec ≥ 1000000000 then
    { t with sec := addSec t.sec (dsec + 1), nsec := (nsec - 1000000000).toNat }
  else if nsec < 0 then
    { t with sec := addSec t.sec (dsec - 1), nsec := (nsec + 1000000000).toNat }
  else
    { t with sec := addSec t.sec dsec, nsec := nsec.toNat }

/-- Go `Time.Sub(u)`: the duration `t - u` in nanoseconds, or the largest or
smallest duration when the difference does not fit an `int64`. -/
def Time.Sub (t u : Time) : Int :=
  let d := (t.sec - u.sec) * 1000000000 + ((t.nsec : Int) - (u.nsec : Int))
  if minDuration ≤ d ∧ d ≤ maxDuration then d
  else if t.sec < u.sec ∨ (t.sec = u.sec ∧ t.nsec < u.nsec) then minDuration
  else maxDuration

/-- Go `Time.Equal(u)`: the same instant, whatever the locations. -/
def Time.Equal (t u : Time) : Bool := t.sec == u.sec && t.nsec == u.nsec

/-- Go `isLeap(year)`. -/
def isLeap (year : Int) : Bool := year % 4 == 0 && (year % 100 != 0 || year % 400 == 0)

/-- Go `daysBefore[m]`: the days of a non-leap year before month `m + 1`. -/
def daysBefore : Nat → Int
  | 0 => 0
  | 1 => 31
  | 2 => 59
  | 3 => 90
  | 4 => 120
  | 5 => 151
  | 6 => 181
  | 7 => 212
  | 8 => 243
  | 9 => 273
  | 10 => 304
  | 11 => 334
  | _ => 365

/-- Go `absDate`, first half: year and day of the year of the day `d`,
counted from 0001-01-01, through the cycles of 400, 100, 4 and 1 years. Go
counts from a year that lies a multiple of 400 years earlier; the floor
division by the 400-year cycle gives the same year for every `d`. `n - n / 4`
is Go's `n -= n >> 2`. -/
def absDate (d : Int) : Int × Int :=
  let n := d / 146097
  let y := 400 * n
  let d := d - 146097 * n
  let n := d / 36524
  let n := n - n / 4
  let y := y + 100 * n
  let d := d - 36524 * n
  let n := d / 1461
  let y := y + 4 * n
  let d := d - 1461 * n
  let n := d / 365
  let n := n - n / 4
  let y := y + n
  let d := d - 365 * n
  (y + 1, d)

/-- Go `absDate`, second half: month (1..12) and day of the month of the day
`yday` of `year`, with the leap day taken out before the month is estimated
as `day / 31` and adjusted by the table. -/
def monthDay (year yday : Int) : Nat × Nat :=
  if isLeap year = true ∧ yday = 31 + 29 - 1 then (2, 29)
  else
    let day : Int := if isLeap year = true ∧ yday > 31 + 29 - 1 then yday - 1 else yday
    let month : Nat := (day / 31).toNat
    if day ≥ daysBefore (month + 1) then (month + 2, (day - daysBefore (month + 1) + 1).toNat)
    else (month + 1, (day - daysBefore month + 1).toNat)

/-- Go `daysSinceEpoch(year)`: the days from 0001-01-01 to January 1 of
`year`. -/
def daysSinceEpoch (year : Int) : Int :=
  let y := year - 1
  let n := y / 400
  let y := y - 400 * n
  let d := 146097 * n
  let n := y / 100
  let y := y - 100 * n
  let d := d + 36524 * n
  let n := y / 4
  let y := y - 4 * n
  let d := d + 1461 * n
  d + 365 * y

/-- Go `shortDayNames`. -/
def shortDayNames : List String := ["Sun", "Mon", "Tue", "Wed", "Thu", "Fri", "Sat"]

/-- Go `shortMonthNames`. -/
def shortMonthNames : List String :=
  ["Jan", "Feb", "Mar", "Apr", "May", "Jun", "Jul", "Aug", "Sep", "Oct", "Nov", "Dec"]

/-- Go `appendInt(b, x, width)`: the decimal digits of `x`, zero-padded to
`width`, after a minus sign when `x` is negative. -/
def appendInt (x : Int) (width : Nat) : List Char :=
  let digits := Nat.toDigits 10 x.natAbs
  (if x < 0 then ['-'] else []) ++ List.replicate (width - digits.length) '0' ++ digits

/-- The layout that genCrt.go passes to both `Format` and `time.Parse`. -/
def layout : String := "Mon Jan _2 15:04:05 2006"

/-- Go `t.Format("Mon Jan _2 15:04:05 2006")`: the wall clock of `t` in its
own location, which is the instant shifted by the zone offset; the text has
no zone and no fraction of a second. 0001-01-01 was a Monday, day 1 of the
week that starts on Sunday. -/
def Time.Format (t : Time) : List Char :=
  let abs := t.sec + t.offset + unixToInternal
  let days := abs / 86400
  let rem := abs % 86400
  let yd := absDate days
  let md := monthDay yd.1 yd.2
  let wd := ((days + 1) % 7).toNat
  (shortDayNames.getD wd "").toList ++ [' ']
    ++ (shortMonthNames.getD (md.1 - 1) "").toList ++ [' ']
    ++ (if md.2 < 10 then [' '] else []) ++ appendInt md.2 0 ++ [' ']
    ++ appendInt (rem / 3600) 2 ++ [':']
    ++ appendInt (rem % 3600 / 60) 2 ++ [':']
    ++ appendInt (rem % 60) 2 ++ [' ']
    ++ appendInt yd.1 4

/-- Go `errBad` of package time, the error of a value that does not fit the
layout. -/
def errBad : String := "bad value for field"

/-- Go `isDigit(s, i)` on the character at that place. -/
def isDigit (c : Char) : Bool := decide ('0'.toNat ≤ c.toNat ∧ c.toNat ≤ '9'.toNat)

/-- The value `int(c - '0')` of a decimal digit. -/
def digitVal (c : Char) : Nat := c.toNat - '0'.toNat

/-- The number written by a run of decimal digits. -/
def digitsVal (s : List Char) : Nat := s.foldl (fun acc c => acc * 10 + digitVal c) 0

/-- Go time `match(s1, s2)`: equality of two texts of the same length up to
the case of ASCII letters. -/
def matchFold : List Char → List Char → Bool
  | [], [] => true
  | c1 :: s1, c2 :: s2 =>
    if c1 ≠ c2 then
      if (c1.toNat ||| 0x20) ≠ (c2.toNat ||| 0x20) ∨ (c1.toNat ||| 0x20) < 'a'.toNat
          ∨ (c1.toNat ||| 0x20) > 'z'.toNat then false
      else matchFold s1 s2
    else matchFold s1 s2
  | _, _ => false

/-- Loop of Go time `lookup(tab, val)`, from index `i` on. -/
def lookupFrom : Nat → List String → List Char → Except String (Nat × List Char)
  | _, [], _ => .error errBad
  | i, v :: tab, val =>
    if val.length ≥ v.length ∧ matchFold (val.take v.length) v.toList then
      .ok (i, val.drop v.length)
    else lookupFrom (i + 1) tab val

/-- Go time `lookup(tab, val)`: the index of the first name of `tab` that
`val` starts with, and the rest of `val`. -/
def lookup (tab : List String) (val : List Char) : Except String (Nat × List Char) :=
  lookupFrom 0 tab val

/-- Go time `cutspace(s)`: drop the leading spaces. -/
def cutspace : List Char → List Char
  | ' ' :: s => cutspace s
  | s => s

/-- Loop of Go time `skip(value, lit)`; every iteration shortens `lit`, so
its length bounds the number of iterations. -/
def skipLoop : Nat → List Char → List Char → Except String (List Char)
  | _, value, [] => .ok value
  | 0, _, _ :: _ => .error errBad
  | fuel + 1, value, p :: lit =>
    if p = ' ' then
      match value with
      | c :: _ =>
        if c ≠ ' ' then .error errBad else skipLoop fuel (cutspace value) (cutspace lit)
      | [] => skipLoop fuel (cutspace value) (cutspace lit)
    else
      match value with
      | c :: rest => if c ≠ p then .error errBad else skipLoop fuel rest lit
      | [] => .error errBad

/-- Go time `skip(value, lit)`: remove the literal text `lit` of the layout
from the front of `value`; a space of the layout matches a run of spaces. -/
def skip (value lit : List Char) : Except String (List Char) :=
  skipLoop lit.length value lit

/-- Go time `getnum(s, fixed)`: one or two decimal digits, exactly two when
`fixed`. -/
def getnum (s : List Char) (fixed : Bool) : Except String (Nat × List Char) :=
  match s with
  | c0 :: c1 :: rest =>
    if !isDigit c0 then .error errBad
    else if !isDigit c1 then
      if fixed then .error errBad else .ok (digitVal c0, c1 :: rest)
    else .ok (digitVal c0 * 10 + digitVal c1, rest)
  | [c0] =>
    if !isDigit c0 then .error errBad
    else if fixed then .error errBad else .ok (digitVal c0, [])
  | [] => .error errBad

/-- Go time `parseNanoseconds(value, nbytes)` applied to a separator followed
by the run of digits after it: the fraction in nanoseconds, read from at most
nine digits, and the text after the run. -/
def parseNanoseconds (value : List Char) : Nat × List Char :=
  let digits := (value.drop 1).takeWhile isDigit
  let used := digits.take 9
  (digitsVal used * 10 ^ (9 - used.length), value.drop (1 + digits.length))

/-- Go `daysIn(m, year)`: the number of days of the month. -/
def daysIn (month : Nat) (year : Int) : Nat :=
  if month = 2 then (if isLeap year then 29 else 28)
  else if month = 4 ∨ month = 6 ∨ month = 9 ∨ month = 11 then 30
  else 31

/-- Go `time.Date(year, month, day, hour, min, sec, nsec, time.UTC)`: the
month is normalised into the year, the days before the year, before the
month and before the day are added up, and the other fields count linearly. -/
def Date (year : Int) (month day hour min sec nsec : Nat) : Time :=
  let m : Int := (month : Int) - 1
  let year := year + m / 12
  let month : Nat := (m % 12).toNat + 1
  let d := daysSinceEpoch year + daysBefore (month - 1)
    + (if isLeap year = true ∧ month ≥ 3 then 1 else 0) + ((day : Int) - 1)
  { sec := d * 86400 + (hour : Int) * 3600 + (min : Int) * 60 + (sec : Int)
      + ((nsec / 1000000000 : Nat) : Int) - unixToInternal,
    nsec := nsec % 1000000000,
    offset := 0 }

/-- Go `time.Parse("Mon Jan _2 15:04:05 2006", value)`: the elements of the
layout are read in order (weekday name, month name, day of month after an
optional space, hour, minute, second with an optional fraction, four-digit
year), nothing may follow, the day is checked against the month, and the
fields are taken in UTC because the layout carries no zone. -/
def Parse (value : List Char) : Except String Time := do
  let (_, value) ← lookup shortDayNames value
  let value ← skip value [' ']
  let (mon, value) ← lookup shortMonthNames value
  let month := mon + 1
  let value ← skip value [' ']
  let value := match value with
    | ' ' :: rest => rest
    | _ => value
  let (day, value) ← getnum value false
  let value ← skip value [' ']
  let (hour, value) ← getnum value false
  if 24 ≤ hour then throw "hour out of range"
  let value ← skip value [':']
  let (min, value) ← getnum value true
  if 60 ≤ min then throw "minute out of range"
  let value ← skip value [':']
  let (sec, value) ← getnum value true
  if 60 ≤ sec then throw "second out of range"
  let (nsec, value) := match value with
    | c :: d :: _ =>
      if (c = '.' ∨ c = ',') ∧ isDigit d then parseNanoseconds value else (0, value)
    | _ => (0, value)
  let value ← skip value [' ']
  let year ← match value with
    | y0 :: y1 :: y2 :: y3 :: _ =>
      if isDigit y0 ∧ isDigit y1 ∧ isDigit y2 ∧ isDigit y3 then
        pure (digitsVal [y0, y1, y2, y3])
      else throw errBad
    | _ => throw errBad
  let value := value.drop 4
  if value ≠ [] then throw "extra text"
  if day < 1 ∨ day > daysIn month year then throw "day out of range"
  pure (Date year month day hour min sec nsec)

/-! ## strings, net, crypto: the values GenCrt handles -/

/-- The pieces of a text between the occurrences of the separator `sep`. -/
def splitOn (sep : Char) : List Char → List (List Char)
  | [] => [[]]
  | c :: cs =>
    if c = sep then [] :: splitOn sep cs
    else
      match splitOn sep cs with
      | [] => [[c]]
      | t :: ts => (c :: t) :: ts

/-- Go `strings.Split(s, sep)` for a separator of one character: the
substrings of `s` between the separators, one more than there are separators. -/
def Split (s : String) (sep : Char) : List String :=
  (splitOn sep s.toList).map String.mk

/-- Go `strings.Count(s, sep)` for a separator of one character. -/
def Count (s : String) (sep : Char) : Nat := s.toList.count sep

/-- Go `net.IP`, a slice of bytes. -/
abbrev IP := List Nat

/-- Loop of Go net `dtoi(s)`: the decimal digits at the head of `s` are
added up in `n`, `i` counts them; the result is the number, the count, and
whether there was a digit and the number stayed below `0xFFFFFF`. -/
def dtoiLoop : List Char → Nat → Nat → Nat × Nat × Bool
  | c :: s, n, i =>
    if isDigit c then
      if n * 10 + digitVal c ≥ 0xFFFFFF then (0xFFFFFF, i, false)
      else dtoiLoop s (n * 10 + digitVal c) (i + 1)
    else if i = 0 then (0, 0, false) else (n, i, true)
  | [], n, i => if i = 0 then (0, 0, false) else (n, i, true)

/-- Go net `dtoi(s)`. -/
def dtoi (s : List Char) : Nat × Nat × Bool := dtoiLoop s 0 0

/-- Go `net.IPv4(a, b, c, d)`: the sixteen-byte form of an IPv4 address. -/
def IPv4 (p : List Nat) : IP := [0, 0, 0, 0, 0, 0, 0, 0, 0, 0, 0xff, 0xff] ++ p

/-- Loop of Go net `parseIPv4(s)` over the four octets: `n` octets are still
to be read, `i` have been read into `p`. Every octet after the first follows
a dot, is a decimal number of at most 255, and has no leading zero. -/
def parseIPv4Loop : Nat → Nat → List Char → List Nat → Option IP
  | 0, _, s, p => if s.length ≠ 0 then none else some (IPv4 p)
  | n + 1, i, s, p =>
    if s.length = 0 then none
    else
      match (if i > 0 then (match s with
              | '.' :: s1 => some s1
              | _ => none) else some s) with
      | none => none
      | some s =>
        if (dtoi s).2.2 = false ∨ (dtoi s).1 > 0xFF then none
        else if (dtoi s).2.1 > 1 ∧ s.head? = some '0' then none
        else parseIPv4Loop n (i + 1) (s.drop (dtoi s).2.1) (p ++ [(dtoi s).1])

/-- Go net `parseIPv4(s)`. -/
def parseIPv4 (s : List Char) : Option IP := parseIPv4Loop 4 0 s []

/-- Loop of Go `net.ParseIP(s)`: the first dot or colon of the text decides
whether all of `s` is read as an IPv4 or as an IPv6 address; a text with
neither is no address. -/
def parseIPScan (parseIPv6 : String → Option IP) (s : String) : List Char → Option IP
  | [] => none
  | c :: cs =>
    if c = '.' then parseIPv4 s.toList
    else if c = ':' then parseIPv6 s
    else parseIPScan parseIPv6 s cs

/-- Go `net.ParseIP(s)`, with the parser of IPv6 addresses as a
parameter; `none` is Go `nil`. -/
def ParseIP (parseIPv6 : String → Option IP) (s : String) : Option IP :=
  parseIPScan parseIPv6 s s.toList

/-- Go `rsa.PublicKey`. -/
structure RSAPublicKey where
  N : Nat
  E : Int
deriving DecidableEq, Repr

/-- Go `rsa.PrivateKey`: the embedded public key, the private exponent and the
prime factors. -/
structure RSAPrivateKey where
  PublicKey : RSAPublicKey
  D : Nat
  Primes : List Nat
deriving DecidableEq, Repr

/-- Go `ecdsa.PublicKey`, with the curve given by its name. -/
structure ECDSAPublicKey where
  Curve : String
  X : Int
  Y : Int
deriving DecidableEq, Repr

/-- Go `ecdsa.PrivateKey`. -/
structure ECDSAPrivateKey where
  PublicKey : ECDSAPublicKey
  D : Int
deriving DecidableEq, Repr

/-- The dynamic type of an `interface{}` value that holds a private key. -/
inductive PrivKey where
  | rsa (k : RSAPrivateKey)
  | ecdsa (k : ECDSAPrivateKey)
  | other
deriving DecidableEq, Repr

/-- The dynamic type of the public key that `publicKey` returns. -/
inductive PubKey where
  | rsa (k : RSAPublicKey)
  | ecdsa (k : ECDSAPublicKey)
deriving DecidableEq, Repr

/-- genCrt.go `publicKey(priv)` (lines 27-36); `none` is Go `nil`. -/
def publicKey (priv : PrivKey) : Option PubKey :=
  match priv with
  | .rsa k => some (.rsa k.PublicKey)
  | .ecdsa k => some (.ecdsa k.PublicKey)
  | .other => none

/-- genCrt.go `MarshalPKCS8PrivateKey(key)` (lines 54-61);
`x509.MarshalPKCS1PrivateKey` is the first argument. -/
def MarshalPKCS8PrivateKey (marshalPKCS1 : RSAPrivateKey → List Nat) (key : RSAPrivateKey) :
    Except String (List Nat) :=
  let pkey : PKCS8Key :=
    { Version := 0,
      PrivateKeyAlgorithm := [[1, 2, 840, 113549, 1, 1, 1]],
      PrivateKey := marshalPKCS1 key }
  asn1Marshal pkey

/-- Go `x509.KeyUsageDigitalSignature`, `1 << iota` with `iota = 0`. -/
def KeyUsageDigitalSignature : Nat := 1 <<< 0
/-- Go `x509.KeyUsageKeyEncipherment`, `1 << 2`. -/
def KeyUsageKeyEncipherment : Nat := 1 <<< 2
/-- Go `x509.KeyUsageCertSign`, `1 << 5`. -/
def KeyUsageCertSign : Nat := 1 <<< 5
/-- Go `x509.ExtKeyUsageServerAuth`. -/
def ExtKeyUsageServerAuth : Nat := 1
/-- Go `x509.ExtKeyUsageClientAuth`. -/
def ExtKeyUsageClientAuth : Nat := 2

/-- Go `pkix.Name`, the one field the program sets. -/
structure Name where
  Organization : List String
deriving DecidableEq, Repr

/-- Go `x509.Certificate`, the fields the program sets; the others keep
their zero value throughout. -/
structure Certificate where
  SerialNumber : Nat
  Subject : Name
  NotBefore : Time
  NotAfter : Time
  KeyUsage : Nat
  ExtKeyUsage : List Nat
  BasicConstraintsValid : Bool
  IsCA : Bool
  IPAddresses : List IP
  DNSNames : List String
deriving DecidableEq, Repr

/-- Go `pem.Block` without headers; `Type_` is its field `Type`. -/
structure Block where
  Type_ : String
  Bytes : List Nat
deriving DecidableEq, Repr

/-- The loop of genCrt.go lines 117-123 over the host tokens: a token that
`net.ParseIP` accepts is appended to `IPAddresses`, any other to `DNSNames`. -/
def addHosts (parseIP : String → Option IP) (template : Certificate) :
    List String → Certificate
  | [] => template
  | h :: hosts =>
    match parseIP h with
    | some ip => addHosts parseIP { template with IPAddresses := template.IPAddresses ++ [ip] } hosts
    | none => addHosts parseIP { template with DNSNames := template.DNSNames ++ [h] } hosts

/-! ## os: files of the working directory -/

/-- A regular file: permission bits and content. -/
structure File where
  mode : Nat
  data : List Nat
deriving DecidableEq, Repr

/-- The files of the working directory, by name. -/
abbrev FS := String → Option File

/-- The file a relative name denotes: `./name` is `name`. -/
def cleanName (name : String) : String :=
  match name.toList with
  | '.' :: '/' :: rest => String.mk rest
  | _ => name

/-- The file system with the file `name` replaced by `f`. -/
def FS.set (fs : FS) (name : String) (f : File) : FS :=
  fun n => if n = cleanName name then some f else fs n

/-- Go `os.O_WRONLY` (Linux value). -/
def O_WRONLY : Nat := 0x1
/-- Go `os.O_RDWR`. -/
def O_RDWR : Nat := 0x2
/-- Go `os.O_CREATE`. -/
def O_CREATE : Nat := 0x40
/-- Go `os.O_TRUNC`. -/
def O_TRUNC : Nat := 0x200

/-- What the program takes from outside: randomness, the clock, library
functions that are not modelled, and the failures of the operating system.
`openErr name` is the error with which opening `name` for writing fails, if
it does; `writeErr name` is the number of bytes after which a write to `name`
fails and its error, if it does. -/
structure Env where
  GenerateKey : Nat → Except String RSAPrivateKey
  MarshalPKCS1PrivateKey : RSAPrivateKey → List Nat
  Now : Time
  randInt : Nat → Except String Nat
  parseIPv6 : String → Option IP
  CreateCertificate :
    Certificate → Certificate → Option PubKey → PrivKey → Except String (List Nat)
  pemEncode : Block → List Nat
  openErr : String → Option String
  writeErr : String → Option (Nat × String)
  umask : Nat

/-- Go `net.ParseIP` in the environment `e`. -/
def Env.ParseIP (e : Env) (s : String) : Option IP := chatapi.ParseIP e.parseIPv6 s

/-- Go `os.Stat(name)`, the error only: `none` (Go `nil`) exactly when the
file exists. -/
def Stat (fs : FS) (name : String) : Option String :=
  match fs (cleanName name) with
  | some _ => none
  | none => some ("stat " ++ name ++ ": no such file or directory")

/-- Go `os.OpenFile(name, flag, perm)` for writing: an existing file is
truncated under `O_TRUNC` and keeps its mode; a missing file is created under
`O_CREATE` with mode `perm` less the bits of the umask. -/
def OpenFile (e : Env) (fs : FS) (name : String) (flag perm : Nat) : Except String FS :=
  match e.openErr name with
  | some err => .error err
  | none =>
    match fs (cleanName name) with
    | some f => if flag &&& O_TRUNC ≠ 0 then .ok (fs.set name { f with data := [] }) else .ok fs
    | none =>
      if flag &&& O_CREATE ≠ 0 then
        .ok (fs.set name { mode := perm ^^^ (perm &&& e.umask), data := [] })
      else .error ("open " ++ name ++ ": no such file or directory")

/-- Go `os.Create(name)`, which is `OpenFile(name, O_RDWR|O_CREATE|O_TRUNC, 0666)`. -/
def Create (e : Env) (fs : FS) (name : String) : Except String FS :=
  OpenFile e fs name (O_RDWR ||| O_CREATE ||| O_TRUNC) 0o666

/-- A write of `data` at the start of the freshly opened file `name`: all of
it, or the bytes before the failure. -/
def writeFile (e : Env) (fs : FS) (name : String) (data : List Nat) : FS :=
  match fs (cleanName name) with
  | none => fs
  | some f =>
    match e.writeErr name with
    | none => fs.set name { f with data := data ++ f.data.drop data.length }
    | some (n, _) => fs.set name { f with data := data.take n ++ f.data.drop (data.take n).length }

/-! ## GenCrt -/

/-- The calls GenCrt makes to the outside, in the order it makes them. -/
inductive Event where
  | flagParse
  | stat (name : String)
  | stdout (text : String)
  | stderr (text : String)
  | log (text : String)
  | generateKey (bits : Nat)
  | now
  | randInt (max : Nat)
  | createCertificate (template parent : Certificate) (pub : Option PubKey) (priv : PrivKey)
  | create (name : String)
  | openFile (name : String) (flag perm : Nat)
  | pemEncode (name : String) (b : Block)
  | close (name : String)
deriving DecidableEq, Repr

/-- How a call of GenCrt ends: it returns to its caller, or the process is
terminated with an exit status (`log.Fatalf` and `os.Exit(1)` both give 1). -/
inductive Outcome where
  | returned
  | exited (code : Nat)
deriving DecidableEq, Repr

/-- A run of GenCrt: how it ended, the files it left, the calls it made. -/
structure Run where
  outcome : Outcome
  fs : FS
  trace : List Event

/-- The template of genCrt.go lines 95-126 as a function of the host list,
the serial number drawn and the parsed creation time: `notAfter` of line 95,
the literal of lines 103-114, the host loop of lines 116-123, then `IsCA`
and the certificate-signing bit of lines 125-126. -/
def templateFor (parseIP : String → Option IP) (host : String) (serialNumber : Nat)
    (notBefore : Time) : Certificate :=
  let notAfter := notBefore.Add (365 * 24 * Hour)
  let template : Certificate :=
    { SerialNumber := serialNumber,
      Subject := { Organization := ["BurpTeamServer"] },
      NotBefore := notBefore,
      NotAfter := notAfter,
      KeyUsage := KeyUsageKeyEncipherment ||| KeyUsageDigitalSignature,
      ExtKeyUsage := [ExtKeyUsageServerAuth, ExtKeyUsageClientAuth],
      BasicConstraintsValid := true,
      IsCA := false,
      IPAddresses := [],
      DNSNames := [] }
  let hosts := Split host ','
  let template := addHosts parseIP template hosts
  let template := { template with IsCA := true }
  { template with KeyUsage := template.KeyUsage ||| KeyUsageCertSign }

/-- genCrt.go lines 133-154: the certificate `derBytes` and the key
`pkcs8Bytes` are written to their files. -/
def persist (e : Env) (fs : FS) (tr : List Event) (derBytes pkcs8Bytes : List Nat) : Run :=
  let tr := tr ++ [.create "burpServer.pem"]
  match Create e fs "burpServer.pem" with
  | .error err =>
    ⟨.exited 1, fs, tr ++ [.log ("failed to open burpServer.pem for writing: " ++ err)]⟩
  | .ok fs =>
  let certBlock : Block := { Type_ := "CERTIFICATE", Bytes := derBytes }
  let fs := writeFile e fs "burpServer.pem" (e.pemEncode certBlock)
  let tr := tr ++ [.pemEncode "burpServer.pem" certBlock, .close "burpServer.pem",
    .log "written burpServer.pem\n"]
  let tr := tr ++ [.openFile "burpServer.key" (O_WRONLY ||| O_CREATE ||| O_TRUNC) 0o600]
  match OpenFile e fs "burpServer.key" (O_WRONLY ||| O_CREATE ||| O_TRUNC) 0o600 with
  | .error err =>
    ⟨.returned, fs, tr ++ [.log ("failed to open burpServer.key for writing:" ++ err)]⟩
  | .ok fs =>
  let keyBlock : Block := { Type_ := "PRIVATE KEY", Bytes := pkcs8Bytes }
  let fs := writeFile e fs "burpServer.key" (e.pemEncode keyBlock)
  ⟨.returned, fs, tr ++ [.pemEncode "burpServer.key" keyBlock, .close "burpServer.key",
    .log "written burpServer.key\n"]⟩

/-- genCrt.go line 97, `new(big.Int).Lsh(big.NewInt(1), 128)`. -/
def serialNumberLimit : Nat := 1 <<< 128

/-- genCrt.go lines 74-131: GenCrt from the check of `host` to the signed
certificate, entered with the file system `fs` and the calls `tr` made so
far; it goes on with lines 133-154 in `persist`. -/
def generate (e : Env) (host : String) (fs : FS) (tr : List Event) : Run :=
  if host.utf8ByteSize = 0 then
    ⟨.exited 1, fs, tr ++ [.log "Missing required host parameter"]⟩
  else
  let tr := tr ++ [.generateKey 2048]
  match e.GenerateKey 2048 with
  | .error err => ⟨.exited 1, fs, tr ++ [.log ("failed to generate private key: " ++ err)]⟩
  | .ok priv =>
  match MarshalPKCS8PrivateKey e.MarshalPKCS1PrivateKey priv with
  | .error err =>
    ⟨.exited 1, fs, tr ++ [.log ("failed to convert private key to PKCS8: " ++ err)]⟩
  | .ok pkcs8Bytes =>
  let tr := tr ++ [.now]
  match Parse e.Now.Format with
  | .error err =>
    ⟨.exited 1, fs, tr ++ [.stderr ("Failed to parse creation date: " ++ err ++ "\n")]⟩
  | .ok notBefore =>
  let tr := tr ++ [.randInt serialNumberLimit]
  match e.randInt serialNumberLimit with
  | .error err => ⟨.exited 1, fs, tr ++ [.log ("failed to generate serial number: " ++ err)]⟩
  | .ok serialNumber =>
  let template := templateFor e.ParseIP host serialNumber notBefore
  let tr := tr ++ [.createCertificate template template (publicKey (.rsa priv)) (.rsa priv)]
  match e.CreateCertificate template template (publicKey (.rsa priv)) (.rsa priv) with
  | .error err => ⟨.exited 1, fs, tr ++ [.log ("Failed to create certificate: " ++ err)]⟩
  | .ok derBytes => persist e fs tr derBytes pkcs8Bytes

/-- genCrt.go `GenCrt(host)` (lines 63-73, then `generate`), run in the
environment `e` on the working directory `fs`. `flag.Parse()` parses again
the command line that the caller parsed to obtain `host`, and returns. `err`
is the error of `os.Stat`; the tests of lines 67 and 70 are made on the same
`err` inside the block of line 65. -/
def GenCrt (e : Env) (host : String) (fs : FS) : Run :=
  let tr : List Event := [.flagParse, .stat "./burpServer.pem"]
  let err := Stat fs "./burpServer.pem"
  if err = none then
    let tr := tr ++ [.stdout "file burpServer.pem found no need to generate new key\n"]
    if err = none then
      ⟨.returned, fs, tr⟩
    else
      let tr := if err ≠ none then tr ++ [.stdout "creating new certificates\n"] else tr
      generate e host fs tr
  else
    generate e host fs tr

/-! ## A reader of DER, to state what the marshalled key contains -/

/-- The definite length at the head of a DER text and the text after it:
one byte below 128, or `0x80 + n` followed by `n` bytes, big-endian. -/
def readLength : List Nat → Option (Nat × List Nat)
  | [] => none
  | b :: rest =>
    if b < 128 then some (b, rest)
    else if b = 128 ∨ rest.length < b - 128 then none
    else some ((rest.take (b - 128)).foldl (fun acc x => acc * 256 + x) 0, rest.drop (b - 128))

/-- The body of the DER element with identifier octet `ident` at the head
of a text, and the text after the element. -/
def readElement (ident : Nat) : List Nat → Option (List Nat × List Nat)
  | [] => none
  | t :: rest =>
    if t ≠ ident then none
    else
      match readLength rest with
      | none => none
      | some (len, rest) =>
        if rest.length < len then none else some (rest.take len, rest.drop len)

/-- The value of the body of a DER INTEGER, big-endian two-complement. -/
def decodeInteger (body : List Nat) : Option Int :=
  match body with
  | [] => none
  | b :: _ =>
    let u : Int := ((body.foldl (fun acc x => acc * 256 + x) 0 : Nat) : Int)
    some (if b ≥ 128 then u - (256 : Int) ^ body.length else u)

/-- The numbers written in base 128 in the body of an OBJECT IDENTIFIER: a
byte with bit `0x80` continues the number, a byte without ends it. -/
def decodeBase128 : List Nat → Nat → List Nat
  | [], _ => []
  | b :: rest, acc =>
    if b ≥ 128 then decodeBase128 rest (acc * 128 + (b - 128))
    else (acc * 128 + b) :: decodeBase128 rest 0

/-- The arcs of the body of an OBJECT IDENTIFIER: the first number packs
the first two arcs as `40 * a + b`. -/
def decodeObjectIdentifier (body : List Nat) : Option (List Nat) :=
  match decodeBase128 body 0 with
  | [] => none
  | v :: rest =>
    some ((if v < 40 then [0, v] else if v < 80 then [1, v - 40] else [2, v - 80]) ++ rest)

/-- The elements of the body of a SEQUENCE OF OBJECT IDENTIFIER; every
element takes at least two bytes, so the first argument, at least the length
of the text, bounds the number of elements. -/
def decodeOIDs : Nat → List Nat → Option (List (List Nat))
  | _, [] => some []
  | 0, _ :: _ => none
  | fuel + 1, b :: bytes =>
    match readElement 0x06 (b :: bytes) with
    | none => none
    | some (body, rest) =>
      match decodeObjectIdentifier body, decodeOIDs fuel rest with
      | some oid, some oids => some (oid :: oids)
      | _, _ => none

/-- A DER text read as
`SEQUENCE { INTEGER, SEQUENCE OF OBJECT IDENTIFIER, OCTET STRING }` with
nothing after it, into the three fields of a `PKCS8Key`. -/
def decodePKCS8Key (der : List Nat) : Option PKCS8Key :=
  match readElement 0x30 der with
  | some (body, []) =>
    match readElement 0x02 body with
    | none => none
    | some (version, rest) =>
      match readElement 0x30 rest with
      | none => none
      | some (algorithm, rest) =>
        match readElement 0x04 rest with
        | some (key, []) =>
          match decodeInteger version, decodeOIDs algorithm.length algorithm with
          | some v, some oids => some { Version := v, PrivateKeyAlgorithm := oids, PrivateKey := key }
          | _, _ => none
        | _ => none
  | _ => none

/-- The DER text of a `PKCS8Key` with version 0, the single object
identifier 1.2.840.113549.1.1.1 and the key bytes `pkcs1`: the INTEGER
`02 01 00`, the SEQUENCE OF with the identifier `06 09 2A 86 48 86 F7 0D 01 01
01`, and the OCTET STRING, inside one SEQUENCE. -/
def pkcs8Der (pkcs1 : List Nat) : List Nat :=
  taggedEncoder TagSequence true
    ([2, 1, 0] ++ taggedEncoder TagSequence true [6, 9, 42, 134, 72, 134, 247, 13, 1, 1, 1]
      ++ taggedEncoder TagOctetString false pkcs1)

/-- The call of `x509.CreateCertificate` that GenCrt makes (line 128) for
the generated key, the serial number and the parsed creation time. -/
def createCall (e : Env) (host : String) (key : RSAPrivateKey) (serial : Nat)
    (notBefore : Time) : Event :=
  Event.createCertificate (templateFor e.ParseIP host serial notBefore)
    (templateFor e.ParseIP host serial notBefore) (publicKey (PrivKey.rsa key)) (PrivKey.rsa key)

/-- The result of that call. -/
def createResult (e : Env) (host : String) (key : RSAPrivateKey) (serial : Nat)
    (notBefore : Time) : Except String (List Nat) :=
  e.CreateCertificate (templateFor e.ParseIP host serial notBefore)
    (templateFor e.ParseIP host serial notBefore) (publicKey (PrivKey.rsa key)) (PrivKey.rsa key)

/-! ## Sample inputs -/

/-- A small RSA key (the textbook key with modulus 61 * 53). -/
def sampleKey : RSAPrivateKey :=
  { PublicKey := { N := 3233, E := 17 }, D := 2753, Primes := [61, 53] }

/-- An environment in which every step succeeds; the clock reads
2026-11-01 19:29:00.5 UTC in a zone one hour east of UTC. -/
def sampleEnv : Env :=
  { GenerateKey := fun _ => .ok sampleKey,
    MarshalPKCS1PrivateKey := fun k => [k.PublicKey.N / 256, k.PublicKey.N % 256],
    Now := { sec := 1793561340, nsec := 500000000, offset := 3600 },
    randInt := fun _ => .ok 42,
    parseIPv6 := fun h => if h = "::1" then some [0, 0, 0, 0, 0, 0, 0, 0, 0, 0, 0, 0, 0, 0, 0, 1] else none,
    CreateCertificate := fun template _ _ _ => .ok [0x30, template.SerialNumber],
    pemEncode := fun b => b.Type_.toList.map Char.toNat ++ b.Bytes,
    openErr := fun _ => none,
    writeErr := fun _ => none,
    umask := 0o022 }

/-- The sample environment on a disk that takes no byte of a write to
burpServer.pem. -/
def certWriteFailsEnv : Env :=
  { sampleEnv with
    writeErr := fun name =>
      if name = "burpServer.pem" then some (0, "no space left on device") else none }

/-- The sample environment in which burpServer.pem cannot be opened. -/
def certOpenFailsEnv : Env :=
  { sampleEnv with
    openErr := fun name => if name = "burpServer.pem" then some "permission denied" else none }

/-- The sample environment in which burpServer.key cannot be opened. -/
def keyOpenFailsEnv : Env :=
  { sampleEnv with
    openErr := fun name => if name = "burpServer.key" then some "permission denied" else none }

/-- A working directory without files. -/
def emptyFS : FS := fun _ => none

/-- A working directory that holds burpServer.pem and nothing else. -/
def certFS : FS := fun name =>
  if name = "burpServer.pem" then some { mode := 0o644, data := [45, 45] } else none

/-! ## Auxiliary facts -/

theorem cleanName_stat : cleanName "./burpServer.pem" = "burpServer.pem" := by decide

theorem cleanName_pem : cleanName "burpServer.pem" = "burpServer.pem" := by decide

theorem cleanName_key : cleanName "burpServer.key" = "burpServer.key" := by decide

theorem utf8ByteSize_eq_zero {s : String} : s.utf8ByteSize = 0 ↔ s = "" := by
  constructor
  · intro h
    cases s with
    | mk cs =>
      cases cs with
      | nil => rfl
      | cons c cs =>
        have hc := Char.utf8Size_pos c
        simp [String.utf8ByteSize, String.utf8ByteSize.go] at h
        omega
  · intro h
    subst h
    rfl

/-! ## C1, C2: the existing certificate and the empty host -/

/-- C1. When burpServer.pem exists, GenCrt returns to its caller for every
host, empty or not: the file system is left as it was (so burpServer.pem is
not overwritten and burpServer.key is neither created nor changed), and the
only calls made are the flag parse, the stat and the message on standard
output, so no key and no serial number is generated. -/
theorem existing_certificate_kept (e : Env) (host : String) (fs : FS)
    (hpem : fs "burpServer.pem" ≠ none) :
    (GenCrt e host fs).outcome = Outcome.returned
    ∧ (GenCrt e host fs).fs = fs
    ∧ (GenCrt e host fs).trace = [Event.flagParse, Event.stat "./burpServer.pem",
        Event.stdout "file burpServer.pem found no need to generate new key\n"]
    ∧ (∀ bits, Event.generateKey bits ∉ (GenCrt e host fs).trace)
    ∧ (∀ max, Event.randInt max ∉ (GenCrt e host fs).trace)
    ∧ (∀ name, Event.create name ∉ (GenCrt e host fs).trace)
    ∧ (∀ name flag perm, Event.openFile name flag perm ∉ (GenCrt e host fs).trace) := by
  have hstat : Stat fs "./burpServer.pem" = none := by
    unfold Stat
    rw [cleanName_stat]
    cases h : fs "burpServer.pem" with
    | none => exact absurd h hpem
    | some f => rfl
  simp [GenCrt, hstat]

/-- Witness of C1: the empty host on a directory that holds burpServer.pem. -/
theorem existing_certificate_kept_witness :
    certFS "burpServer.pem" ≠ none
    ∧ (GenCrt sampleEnv "" certFS).outcome = Outcome.returned
    ∧ (GenCrt sampleEnv "" certFS).fs = certFS :=
  ⟨by decide, (existing_certificate_kept sampleEnv "" certFS (by decide)).1,
    (existing_certificate_kept sampleEnv "" certFS (by decide)).2.1⟩

/-- Counterexample to C2 as stated: with burpServer.pem present, GenCrt on
the empty host returns to its caller; the process is not terminated. -/
theorem empty_host_with_certificate_returns :
    certFS "burpServer.pem" ≠ none
    ∧ (GenCrt sampleEnv "" certFS).outcome = Outcome.returned
    ∧ (GenCrt sampleEnv "" certFS).outcome ≠ Outcome.exited 1 := by
  decide

/-- C2, amended. When burpServer.pem does not exist, GenCrt on the empty
host terminates the process with status 1: the file system is left as it
was, and the only calls made are the flag parse, the stat and the fatal log
line, so no key material is generated. -/
theorem empty_host_fatal (e : Env) (fs : FS) (hpem : fs "burpServer.pem" = none) :
    (GenCrt e "" fs).outcome = Outcome.exited 1
    ∧ (GenCrt e "" fs).fs = fs
    ∧ (GenCrt e "" fs).trace = [Event.flagParse, Event.stat "./burpServer.pem",
        Event.log "Missing required host parameter"]
    ∧ (∀ bits, Event.generateKey bits ∉ (GenCrt e "" fs).trace)
    ∧ (∀ name, Event.create name ∉ (GenCrt e "" fs).trace)
    ∧ (∀ name flag perm, Event.openFile name flag perm ∉ (GenCrt e "" fs).trace) := by
  have hstat : Stat fs "./burpServer.pem"
      = some ("stat " ++ "./burpServer.pem" ++ ": no such file or directory") := by
    unfold Stat
    rw [cleanName_stat, hpem]
  have hlen : "".utf8ByteSize = 0 := rfl
  simp [GenCrt, generate, hstat, hlen]

/-- Witness of C2 amended: the empty host on an empty directory. -/
theorem empty_host_fatal_witness :
    emptyFS "burpServer.pem" = none
    ∧ (GenCrt sampleEnv "" emptyFS).outcome = Outcome.exited 1 :=
  ⟨rfl, (empty_host_fatal sampleEnv emptyFS rfl).1⟩

/-! ## The shape of a run -/

theorem GenCrt_of_present (e : Env) (host : String) (fs : FS)
    (hpem : fs "burpServer.pem" ≠ none) :
    GenCrt e host fs = ⟨Outcome.returned, fs, [Event.flagParse, Event.stat "./burpServer.pem",
      Event.stdout "file burpServer.pem found no need to generate new key\n"]⟩ := by
  have hstat : Stat fs "./burpServer.pem" = none := by
    unfold Stat
    rw [cleanName_stat]
    cases h : fs "burpServer.pem" with
    | none => exact absurd h hpem
    | some f => rfl
  simp [GenCrt, hstat]

theorem GenCrt_of_absent (e : Env) (host : String) (fs : FS)
    (hpem : fs "burpServer.pem" = none) :
    GenCrt e host fs
      = generate e host fs [Event.flagParse, Event.stat "./burpServer.pem"] := by
  have hstat : Stat fs "./burpServer.pem"
      = some ("stat " ++ "./burpServer.pem" ++ ": no such file or directory") := by
    unfold Stat
    rw [cleanName_stat, hpem]
  simp [GenCrt, hstat]

/-- The bytes of the INTEGER 0 that `asn1.Marshal` writes for `Version`. -/
theorem version_bytes : taggedEncoder TagInteger false (int64Encode 0) = [2, 1, 0] := by
  decide

/-- The bytes `asn1.Marshal` writes for the one-element slice that holds the
object identifier 1.2.840.113549.1.1.1. -/
theorem algorithm_bytes :
    marshalOIDs [[1, 2, 840, 113549, 1, 1, 1]]
      = Except.ok [6, 9, 42, 134, 72, 134, 247, 13, 1, 1, 1] := by
  decide

theorem MarshalPKCS8PrivateKey_ok (f : RSAPrivateKey → List Nat) (key : RSAPrivateKey) :
    MarshalPKCS8PrivateKey f key = Except.ok (pkcs8Der (f key)) := by
  simp only [MarshalPKCS8PrivateKey, asn1Marshal, algorithm_bytes, version_bytes, pkcs8Der]

/-- A run on a non-empty host in which the key, the creation time and the
serial number are obtained goes on to `x509.CreateCertificate`, and from its
result to the fatal exit or to the writing of the two files. -/
theorem generate_reach (e : Env) (host : String) (fs : FS) (tr : List Event)
    (key : RSAPrivateKey) (notBefore : Time) (serial : Nat)
    (hhost : host ≠ "")
    (hkey : e.GenerateKey 2048 = Except.ok key)
    (htime : Parse e.Now.Format = Except.ok notBefore)
    (hserial : e.randInt serialNumberLimit = Except.ok serial) :
    generate e host fs tr
      = match createResult e host key serial notBefore with
        | .error err =>
          ⟨Outcome.exited 1, fs, tr ++ [Event.generateKey 2048, Event.now,
            Event.randInt serialNumberLimit, createCall e host key serial notBefore,
            Event.log ("Failed to create certificate: " ++ err)]⟩
        | .ok derBytes =>
          persist e fs (tr ++ [Event.generateKey 2048, Event.now,
            Event.randInt serialNumberLimit, createCall e host key serial notBefore]) derBytes
            (pkcs8Der (e.MarshalPKCS1PrivateKey key)) := by
  have hlen : ¬ host.utf8ByteSize = 0 := fun hh => hhost (utf8ByteSize_eq_zero.mp hh)
  unfold generate
  rw [if_neg hlen]
  simp only [hkey, MarshalPKCS8PrivateKey_ok, htime, hserial, List.append_assoc,
    List.cons_append, List.nil_append, createResult, createCall]

theorem persist_createCertificate_mem (e : Env) (fs : FS) (tr : List Event)
    (derBytes pkcs8Bytes : List Nat) (tmpl parent : Certificate) (pub : Option PubKey)
    (priv : PrivKey) :
    Event.createCertificate tmpl parent pub priv ∈ (persist e fs tr derBytes pkcs8Bytes).trace
      ↔ Event.createCertificate tmpl parent pub priv ∈ tr := by
  unfold persist
  cases Create e fs "burpServer.pem" with
  | error err => simp
  | ok fs1 =>
    simp only []
    cases OpenFile e (writeFile e fs1 "burpServer.pem"
        (e.pemEncode { Type_ := "CERTIFICATE", Bytes := derBytes })) "burpServer.key"
        (O_WRONLY ||| O_CREATE ||| O_TRUNC) 0o600 with
    | error err => simp
    | ok fs2 => simp

/-- Every call of `x509.CreateCertificate` in a run of GenCrt comes after a
successful key generation, time parse and serial-number draw, and passes the
template of lines 95-126 as both template and parent, with the generated key
and its public half. -/
theorem createCertificate_mem {e : Env} {host : String} {fs : FS}
    {tmpl parent : Certificate} {pub : Option PubKey} {priv : PrivKey}
    (h : Event.createCertificate tmpl parent pub priv ∈ (GenCrt e host fs).trace) :
    ∃ key notBefore serial,
      fs "burpServer.pem" = none ∧ host ≠ ""
      ∧ e.GenerateKey 2048 = Except.ok key
      ∧ Parse e.Now.Format = Except.ok notBefore
      ∧ e.randInt serialNumberLimit = Except.ok serial
      ∧ tmpl = templateFor e.ParseIP host serial notBefore
      ∧ parent = tmpl ∧ pub = some (PubKey.rsa key.PublicKey) ∧ priv = PrivKey.rsa key := by
  by_cases hpem : fs "burpServer.pem" = none
  · rw [GenCrt_of_absent e host fs hpem] at h
    by_cases hhost : host = ""
    · subst hhost
      have hlen : "".utf8ByteSize = 0 := rfl
      simp [generate, hlen] at h
    · cases hkey : e.GenerateKey 2048 with
      | error err =>
        have hlen : ¬ host.utf8ByteSize = 0 := fun hh => hhost (utf8ByteSize_eq_zero.mp hh)
        simp [generate, hlen, hkey] at h
      | ok key =>
        cases htime : Parse e.Now.Format with
        | error err =>
          have hlen : ¬ host.utf8ByteSize = 0 := fun hh => hhost (utf8ByteSize_eq_zero.mp hh)
          simp [generate, hlen, hkey, htime, MarshalPKCS8PrivateKey_ok] at h
        | ok notBefore =>
          cases hserial : e.randInt serialNumberLimit with
          | error err =>
            have hlen : ¬ host.utf8ByteSize = 0 := fun hh => hhost (utf8ByteSize_eq_zero.mp hh)
            simp [generate, hlen, hkey, htime, hserial, MarshalPKCS8PrivateKey_ok] at h
          | ok serial =>
            refine ⟨key, notBefore, serial, hpem, hhost, rfl, rfl, rfl, ?_⟩
            rw [generate_reach e host fs _ key notBefore serial hhost hkey htime hserial] at h
            cases hres : createResult e host key serial notBefore with
            | error err =>
              simp [hres, createCall, publicKey] at h
              obtain ⟨h1, h2, h3, h4⟩ := h
              exact ⟨h1, by rw [h2, h1], h3, h4⟩
            | ok der =>
              simp [hres, persist_createCertificate_mem, createCall, publicKey] at h
              obtain ⟨h1, h2, h3, h4⟩ := h
              exact ⟨h1, by rw [h2, h1], h3, h4⟩
  · rw [GenCrt_of_present e host fs hpem] at h
    simp at h


/-! ## The template -/

theorem addHosts_fixed (p : String → Option IP) (hosts : List String) (t : Certificate) :
    (addHosts p t hosts).SerialNumber = t.SerialNumber
    ∧ (addHosts p t hosts).Subject = t.Subject
    ∧ (addHosts p t hosts).NotBefore = t.NotBefore
    ∧ (addHosts p t hosts).NotAfter = t.NotAfter
    ∧ (addHosts p t hosts).KeyUsage = t.KeyUsage
    ∧ (addHosts p t hosts).ExtKeyUsage = t.ExtKeyUsage
    ∧ (addHosts p t hosts).BasicConstraintsValid = t.BasicConstraintsValid
    ∧ (addHosts p t hosts).IsCA = t.IsCA := by
  induction hosts generalizing t with
  | nil => simp [addHosts]
  | cons h hosts ih =>
    unfold addHosts
    cases p h with
    | none => simpa using ih _
    | some ip => simpa using ih _

theorem addHosts_IPAddresses (p : String → Option IP) (hosts : List String) (t : Certificate) :
    (addHosts p t hosts).IPAddresses = t.IPAddresses ++ hosts.filterMap p := by
  induction hosts generalizing t with
  | nil => simp [addHosts]
  | cons h hosts ih =>
    unfold addHosts
    cases hp : p h with
    | none => simp [ih, hp]
    | some ip => simp [ih, hp]

theorem addHosts_DNSNames (p : String → Option IP) (hosts : List String) (t : Certificate) :
    (addHosts p t hosts).DNSNames
      = t.DNSNames ++ hosts.filter (fun h => (p h).isNone) := by
  induction hosts generalizing t with
  | nil => simp [addHosts]
  | cons h hosts ih =>
    unfold addHosts
    cases hp : p h with
    | none => simp [ih, hp]
    | some ip => simp [ih, hp]

theorem templateFor_IPAddresses (p : String → Option IP) (host : String) (serial : Nat)
    (notBefore : Time) :
    (templateFor p host serial notBefore).IPAddresses = (Split host ',').filterMap p := by
  simp [templateFor, addHosts_IPAddresses]

theorem templateFor_DNSNames (p : String → Option IP) (host : String) (serial : Nat)
    (notBefore : Time) :
    (templateFor p host serial notBefore).DNSNames
      = (Split host ',').filter (fun h => (p h).isNone) := by
  simp [templateFor, addHosts_DNSNames]

theorem templateFor_KeyUsage (p : String → Option IP) (host : String) (serial : Nat)
    (notBefore : Time) :
    (templateFor p host serial notBefore).KeyUsage
      = (KeyUsageKeyEncipherment ||| KeyUsageDigitalSignature) ||| KeyUsageCertSign := by
  simp [templateFor, (addHosts_fixed p _ _).2.2.2.2.1]

theorem templateFor_flags (p : String → Option IP) (host : String) (serial : Nat)
    (notBefore : Time) :
    (templateFor p host serial notBefore).IsCA = true
    ∧ (templateFor p host serial notBefore).BasicConstraintsValid = true := by
  simp [templateFor, (addHosts_fixed p _ _).2.2.2.2.2.2.1]

theorem templateFor_validity (p : String → Option IP) (host : String) (serial : Nat)
    (notBefore : Time) :
    (templateFor p host serial notBefore).NotBefore = notBefore
    ∧ (templateFor p host serial notBefore).NotAfter = notBefore.Add (365 * 24 * Hour) := by
  simp [templateFor, (addHosts_fixed p _ _).2.2.1, (addHosts_fixed p _ _).2.2.2.1]


/-! ## strings.Split -/

theorem splitOn_ne_nil (sep : Char) (cs : List Char) : splitOn sep cs ≠ [] := by
  cases cs with
  | nil => simp [splitOn]
  | cons c cs =>
    unfold splitOn
    split
    · simp
    · split <;> simp

theorem splitOn_length (sep : Char) (cs : List Char) :
    (splitOn sep cs).length = cs.count sep + 1 := by
  induction cs with
  | nil => simp [splitOn]
  | cons c cs ih =>
    unfold splitOn
    by_cases hc : c = sep
    · subst hc
      simp [ih]
    · have hne : (c == sep) = false := by simpa using hc
      rw [if_neg hc, List.count_cons, hne]
      cases hs : splitOn sep cs with
      | nil => exact absurd hs (splitOn_ne_nil sep cs)
      | cons t ts =>
        rw [hs] at ih
        simpa using ih

theorem splitOn_intercalate (sep : Char) (cs : List Char) :
    [sep].intercalate (splitOn sep cs) = cs := by
  induction cs with
  | nil => simp [splitOn, List.intercalate]
  | cons c cs ih =>
    unfold splitOn
    by_cases hc : c = sep
    · subst hc
      rw [if_pos rfl]
      cases hs : splitOn c cs with
      | nil => exact absurd hs (splitOn_ne_nil c cs)
      | cons t ts =>
        rw [hs] at ih
        simp only [List.intercalate] at ih ⊢
        simp [List.intersperse, ih]
    · rw [if_neg hc]
      cases hs : splitOn sep cs with
      | nil => exact absurd hs (splitOn_ne_nil sep cs)
      | cons t ts =>
        rw [hs] at ih
        simp only [List.intercalate] at ih ⊢
        cases ts with
        | nil => simpa [List.intersperse] using ih
        | cons u us => simpa [List.intersperse] using ih

theorem splitOn_not_mem (sep : Char) (cs : List Char) :
    ∀ t ∈ splitOn sep cs, sep ∉ t := by
  induction cs with
  | nil => simp [splitOn]
  | cons c cs ih =>
    unfold splitOn
    by_cases hc : c = sep
    · rw [if_pos hc]
      intro t ht
      rcases List.mem_cons.mp ht with h | h
      · subst h
        simp
      · exact ih t h
    · rw [if_neg hc]
      cases hs : splitOn sep cs with
      | nil => exact absurd hs (splitOn_ne_nil sep cs)
      | cons u us =>
        rw [hs] at ih
        intro t ht
        rcases List.mem_cons.mp ht with h | h
        · subst h
          have hu := ih u (List.mem_cons_self _ _)
          intro hmem
          rcases List.mem_cons.mp hmem with h1 | h1
          · exact hc h1.symm
          · exact hu h1
        · exact ih t (List.mem_cons_of_mem _ h)

theorem Split_length (host : String) : (Split host ',').length = Count host ',' + 1 := by
  simp [Split, Count, splitOn_length]

theorem Split_intercalate (host : String) :
    [','].intercalate ((Split host ',').map String.toList) = host.toList := by
  have h : (Split host ',').map String.toList = splitOn ',' host.toList := by
    simp [Split, List.map_map, Function.comp_def]
  rw [h, splitOn_intercalate]

theorem Split_no_comma (host : String) : ∀ tok ∈ Split host ',', ',' ∉ tok.toList := by
  intro tok htok
  simp only [Split, List.mem_map] at htok
  obtain ⟨t, ht, rfl⟩ := htok
  exact splitOn_not_mem ',' host.toList t ht

theorem filterMap_filter_length {α β : Type} (p : α → Option β) (l : List α) :
    (l.filterMap p).length + (l.filter (fun a => (p a).isNone)).length = l.length := by
  induction l with
  | nil => simp
  | cons a l ih =>
    cases hp : p a with
    | none => simp [List.filterMap_cons, hp]; omega
    | some b => simp [List.filterMap_cons, hp]; omega


/-- The run on `"127.0.0.1,example.com"` in the sample environment, on an
empty directory, reaches `x509.CreateCertificate`: the creation time is the
wall clock 20:29:00 of the zone read as UTC. -/
theorem sample_run_calls_create :
    createCall sampleEnv "127.0.0.1,example.com" sampleKey 42 ⟨1793564940, 0, 0⟩
      ∈ (GenCrt sampleEnv "127.0.0.1,example.com" emptyFS).trace := by
  decide

/-! ## C3: the host lists of the template -/

/-- C3. In every run of GenCrt that calls `x509.CreateCertificate`, the
lists of the template partition the comma-separated tokens of `host`:
`IPAddresses` holds, in input order, the addresses of the tokens that
`net.ParseIP` accepts, `DNSNames` holds, in input order and verbatim, the
tokens it rejects; a token with an address is not among the names; the two
lengths add up to the number of commas plus one; the tokens are the pieces of
`host` between its commas (joined by commas they give `host` back, and none
holds a comma). For `"127.0.0.1,example.com"` the lists are the address
127.0.0.1 alone (in the sixteen-byte form of `net.IP`) and `"example.com"`
alone. -/
theorem host_lists_partition (e : Env) (host : String) (fs : FS)
    (tmpl parent : Certificate) (pub : Option PubKey) (priv : PrivKey)
    (h : Event.createCertificate tmpl parent pub priv ∈ (GenCrt e host fs).trace) :
    tmpl.IPAddresses = (Split host ',').filterMap e.ParseIP
    ∧ tmpl.DNSNames = (Split host ',').filter (fun tok => (e.ParseIP tok).isNone)
    ∧ (∀ tok ∈ Split host ',', ∀ ip, e.ParseIP tok = some ip →
        ip ∈ tmpl.IPAddresses ∧ tok ∉ tmpl.DNSNames)
    ∧ (∀ tok ∈ Split host ',', e.ParseIP tok = none → tok ∈ tmpl.DNSNames)
    ∧ tmpl.IPAddresses.length + tmpl.DNSNames.length = Count host ',' + 1
    ∧ [','].intercalate ((Split host ',').map String.toList) = host.toList
    ∧ (∀ tok ∈ Split host ',', ',' ∉ tok.toList)
    ∧ (host = "127.0.0.1,example.com" →
        tmpl.IPAddresses = [[0, 0, 0, 0, 0, 0, 0, 0, 0, 0, 0xff, 0xff, 127, 0, 0, 1]]
        ∧ tmpl.DNSNames = ["example.com"]) := by
  obtain ⟨key, notBefore, serial, -, -, -, -, -, htmpl, -, -, -⟩ := createCertificate_mem h
  have hip := templateFor_IPAddresses e.ParseIP host serial notBefore
  have hdns := templateFor_DNSNames e.ParseIP host serial notBefore
  rw [← htmpl] at hip hdns
  refine ⟨hip, hdns, ?_, ?_, ?_, Split_intercalate host, Split_no_comma host, ?_⟩
  · intro tok htok ip hparse
    constructor
    · rw [hip]
      exact List.mem_filterMap.mpr ⟨tok, htok, hparse⟩
    · rw [hdns]
      intro hmem
      have := (List.mem_filter.mp hmem).2
      simp [hparse] at this
  · intro tok htok hparse
    rw [hdns]
    exact List.mem_filter.mpr ⟨htok, by simp [hparse]⟩
  · rw [hip, hdns, filterMap_filter_length, Split_length]
  · intro hhost
    have hsplit : Split "127.0.0.1,example.com" ',' = ["127.0.0.1", "example.com"] := by
      decide
    have h1 : e.ParseIP "127.0.0.1"
        = some [0, 0, 0, 0, 0, 0, 0, 0, 0, 0, 0xff, 0xff, 127, 0, 0, 1] := rfl
    have h2 : e.ParseIP "example.com" = none := rfl
    rw [hip, hdns, hhost, hsplit]
    simp [h1, h2]

/-- Witness of C3: the run on `"127.0.0.1,example.com"` in the sample
environment calls `x509.CreateCertificate` with the address list
`[127.0.0.1]` and the name list `["example.com"]`. -/
theorem host_lists_partition_witness :
    createCall sampleEnv "127.0.0.1,example.com" sampleKey 42 ⟨1793564940, 0, 0⟩
      ∈ (GenCrt sampleEnv "127.0.0.1,example.com" emptyFS).trace
    ∧ (templateFor sampleEnv.ParseIP "127.0.0.1,example.com" 42 ⟨1793564940, 0, 0⟩).IPAddresses
        = [[0, 0, 0, 0, 0, 0, 0, 0, 0, 0, 0xff, 0xff, 127, 0, 0, 1]]
    ∧ (templateFor sampleEnv.ParseIP "127.0.0.1,example.com" 42 ⟨1793564940, 0, 0⟩).DNSNames
        = ["example.com"] :=
  have hmem := sample_run_calls_create
  ⟨hmem,
    ((host_lists_partition sampleEnv "127.0.0.1,example.com" emptyFS _ _ _ _ hmem).2.2.2.2.2.2.2
      rfl).1,
    ((host_lists_partition sampleEnv "127.0.0.1,example.com" emptyFS _ _ _ _ hmem).2.2.2.2.2.2.2
      rfl).2⟩


/-! ## time: the range of a parsed time -/

theorem lookupFrom_lt (tab : List String) (i : Nat) (val : List Char)
    (v : Nat × List Char) (h : lookupFrom i tab val = Except.ok v) :
    i ≤ v.1 ∧ v.1 < i + tab.length := by
  induction tab generalizing i with
  | nil => simp [lookupFrom] at h
  | cons v tab ih =>
    unfold lookupFrom at h
    split at h
    · simp only [Except.ok.injEq] at h
      subst h
      simp only [List.length_cons]
      omega
    · have := ih (i + 1) h
      simp only [List.length_cons]
      omega

theorem digitVal_le {c : Char} (h : isDigit c = true) : digitVal c ≤ 9 := by
  simp only [isDigit, decide_eq_true_eq] at h
  have h9 : '9'.toNat = 57 := by decide
  have h0 : '0'.toNat = 48 := by decide
  unfold digitVal
  omega

theorem foldl_digits_lt (s : List Char) (hs : ∀ c ∈ s, isDigit c = true) (acc : Nat) :
    s.foldl (fun a c => a * 10 + digitVal c) acc + 1 ≤ (acc + 1) * 10 ^ s.length := by
  induction s generalizing acc with
  | nil => simp
  | cons c s ih =>
    have hc := digitVal_le (hs c (List.mem_cons_self _ _))
    have := ih (fun d hd => hs d (List.mem_cons_of_mem _ hd)) (acc * 10 + digitVal c)
    simp only [List.foldl_cons, List.length_cons]
    calc List.foldl (fun a c => a * 10 + digitVal c) (acc * 10 + digitVal c) s + 1
        ≤ (acc * 10 + digitVal c + 1) * 10 ^ s.length := this
      _ ≤ ((acc + 1) * 10) * 10 ^ s.length := Nat.mul_le_mul_right _ (by omega)
      _ = (acc + 1) * 10 ^ (s.length + 1) := by rw [Nat.mul_assoc, ← Nat.pow_succ']

theorem digitsVal_lt (s : List Char) (hs : ∀ c ∈ s, isDigit c = true) :
    digitsVal s < 10 ^ s.length := by
  have := foldl_digits_lt s hs 0
  simp only [Nat.zero_add, Nat.one_mul] at this
  exact this

theorem parseNanoseconds_lt (value : List Char) : (parseNanoseconds value).1 < 1000000000 := by
  simp only [parseNanoseconds]
  have hall : ∀ c ∈ ((value.drop 1).takeWhile isDigit).take 9, isDigit c = true := by
    intro c hc
    exact List.mem_takeWhile_imp (List.mem_of_mem_take hc)
  have hlt := digitsVal_lt _ hall
  have hlen : (((value.drop 1).takeWhile isDigit).take 9).length ≤ 9 := by
    simp [List.length_take]
  calc digitsVal (((value.drop 1).takeWhile isDigit).take 9)
          * 10 ^ (9 - (((value.drop 1).takeWhile isDigit).take 9).length)
      < 10 ^ (((value.drop 1).takeWhile isDigit).take 9).length
          * 10 ^ (9 - (((value.drop 1).takeWhile isDigit).take 9).length) :=
        Nat.mul_lt_mul_of_pos_right hlt (by positivity)
    _ = 10 ^ 9 := by rw [← Nat.pow_add]; congr 1; omega
    _ = 1000000000 := by norm_num

theorem isLeap_iff (year : Int) :
    isLeap year = true ↔ year % 4 = 0 ∧ (year % 100 ≠ 0 ∨ year % 400 = 0) := by
  simp [isLeap]

theorem daysIn_le (month : Nat) (year : Int) : daysIn month year ≤ 31 := by
  unfold daysIn
  split_ifs <;> omega

theorem Date_range (year : Int) (month day hour min sec nsec : Nat)
    (hy0 : 0 ≤ year) (hy1 : year ≤ 9999) (hm0 : 1 ≤ month) (hm1 : month ≤ 12)
    (hd0 : 1 ≤ day) (hd1 : day ≤ 31) (hh : hour < 24) (hmin : min < 60) (hs : sec < 60)
    (hn : nsec < 1000000000) :
    -62167219200 ≤ (Date year month day hour min sec nsec).sec
    ∧ (Date year month day hour min sec nsec).sec ≤ 253402300799
    ∧ (Date year month day hour min sec nsec).nsec < 1000000000
    ∧ (Date year month day hour min sec nsec).offset = 0 := by
  have hm : (((month : Int) - 1) % 12).toNat + 1 = month := by omega
  have hy : year + ((month : Int) - 1) / 12 = year := by omega
  simp only [Date, hm, hy, daysSinceEpoch, unixToInternal, isLeap_iff]
  refine ⟨?_, ?_, ?_, trivial⟩
  · interval_cases month <;> simp only [daysBefore] <;> split_ifs <;> omega
  · interval_cases month <;> simp only [daysBefore] <;> split_ifs <;> omega
  · omega


theorem month_index_lt {val : List Char} {v : Nat × List Char}
    (h : lookup shortMonthNames val = Except.ok v) : v.1 < 12 := by
  have := lookupFrom_lt shortMonthNames 0 val v h
  simp only [shortMonthNames, List.length_cons, List.length_nil] at this
  omega

theorem year_digits_le {y0 y1 y2 y3 : Char}
    (h : isDigit y0 = true ∧ isDigit y1 = true ∧ isDigit y2 = true ∧ isDigit y3 = true) :
    digitsVal [y0, y1, y2, y3] ≤ 9999 := by
  have h0 := digitVal_le h.1
  have h1 := digitVal_le h.2.1
  have h2 := digitVal_le h.2.2.1
  have h3 := digitVal_le h.2.2.2
  simp only [digitsVal, List.foldl_cons, List.foldl_nil]
  omega

theorem day_of_month_le {day month : Nat} {year : Int}
    (h : ¬(day < 1 ∨ day > daysIn month year)) : 1 ≤ day ∧ day ≤ 31 := by
  have := daysIn_le month year
  omega

/-- A time that `time.Parse` returns for the layout is `time.Date` of fields
in their calendar ranges, with a year of four digits. -/
theorem Parse_fields {value : List Char} {t : Time} (h : Parse value = Except.ok t) :
    ∃ (year : Int) (month day hour min sec nsec : Nat),
      t = Date year month day hour min sec nsec
      ∧ 0 ≤ year ∧ year ≤ 9999 ∧ 1 ≤ month ∧ month ≤ 12 ∧ 1 ≤ day ∧ day ≤ 31
      ∧ hour < 24 ∧ min < 60 ∧ sec < 60 ∧ nsec < 1000000000 := by
  unfold Parse at h
  simp only [bind, Except.bind, pure, Except.pure, throw, throwThe, MonadExceptOf.throw] at h
  repeat' split at h
  all_goals first | (simp at h; done) | skip
  all_goals
    have hmon := month_index_lt ‹lookup shortMonthNames _ = Except.ok _›
    have hyear := year_digits_le ‹isDigit _ = true ∧ isDigit _ = true ∧ isDigit _ = true ∧ isDigit _ = true›
    have hday := day_of_month_le ‹¬(_ < 1 ∨ _ > daysIn _ _)›
    refine ⟨_, _, _, _, _, _, _, (Except.ok.inj h).symm, ?_, ?_, ?_, ?_, ?_, ?_, ?_, ?_, ?_, ?_⟩
    all_goals first | omega | exact parseNanoseconds_lt _

theorem Parse_range {value : List Char} {t : Time} (h : Parse value = Except.ok t) :
    -62167219200 ≤ t.sec ∧ t.sec ≤ 253402300799 ∧ t.nsec < 1000000000 ∧ t.offset = 0 := by
  obtain ⟨year, month, day, hour, min, sec, nsec, rfl, h0, h1, h2, h3, h4, h5, h6, h7, h8, h9⟩ :=
    Parse_fields h
  exact Date_range year month day hour min sec nsec h0 h1 h2 h3 h4 h5 h6 h7 h8 h9


theorem year_duration : 365 * 24 * Hour = 31536000 * Second := by decide

theorem Add_year_Sub (t : Time) (h0 : -62167219200 ≤ t.sec) (h1 : t.sec ≤ 253402300799) :
    (t.Add (365 * 24 * Hour)).Sub t = 365 * 24 * Hour := by
  have hd : Int.tdiv (365 * 24 * Hour) 1000000000 = 31536000 := by decide
  have hm : Int.tmod (365 * 24 * Hour) 1000000000 = 0 := by decide
  have hy : 365 * 24 * Hour = 31536000000000000 := by decide
  simp only [Time.Add, hd, hm, Int.add_zero]
  simp only [hy, Time.Sub, addSec, minDuration, maxDuration, unixToInternal]
  norm_num
  split_ifs <;> dsimp only at * <;> omega

/-- C4. In every run of GenCrt that calls `x509.CreateCertificate`, the
template's `NotAfter` minus its `NotBefore` (Go `NotAfter.Sub(NotBefore)`) is
exactly `365 * 24 * time.Hour`, which is 31,536,000 seconds. -/
theorem validity_window (e : Env) (host : String) (fs : FS)
    (tmpl parent : Certificate) (pub : Option PubKey) (priv : PrivKey)
    (h : Event.createCertificate tmpl parent pub priv ∈ (GenCrt e host fs).trace) :
    tmpl.NotAfter.Sub tmpl.NotBefore = 365 * 24 * Hour
    ∧ tmpl.NotAfter.Sub tmpl.NotBefore = 31536000 * Second := by
  obtain ⟨key, notBefore, serial, -, -, -, htime, -, htmpl, -, -, -⟩ := createCertificate_mem h
  obtain ⟨h0, h1, -, -⟩ := Parse_range htime
  have hv := templateFor_validity e.ParseIP host serial notBefore
  rw [← htmpl] at hv
  rw [hv.1, hv.2, Add_year_Sub notBefore h0 h1]
  exact ⟨rfl, year_duration⟩


/-- Witness of C4: the template of the sample run is valid for 31,536,000
seconds. -/
theorem validity_window_witness :
    createCall sampleEnv "127.0.0.1,example.com" sampleKey 42 ⟨1793564940, 0, 0⟩
      ∈ (GenCrt sampleEnv "127.0.0.1,example.com" emptyFS).trace
    ∧ (templateFor sampleEnv.ParseIP "127.0.0.1,example.com" 42 ⟨1793564940, 0, 0⟩).NotAfter.Sub
        (templateFor sampleEnv.ParseIP "127.0.0.1,example.com" 42 ⟨1793564940, 0, 0⟩).NotBefore
        = 31536000 * Second :=
  ⟨sample_run_calls_create,
    (validity_window sampleEnv "127.0.0.1,example.com" emptyFS _ _ _ _
      sample_run_calls_create).2⟩

/-! ## C9: the usage flags of the template -/

/-- C9. In every run of GenCrt that calls `x509.CreateCertificate`, whatever
the host tokens, the same template is passed as subject and as issuer, its
`KeyUsage` is `DigitalSignature | KeyEncipherment | CertSign` (the number
37), which has the certificate-signing bit, and `IsCA` and
`BasicConstraintsValid` are both true. -/
theorem template_is_signing_ca (e : Env) (host : String) (fs : FS)
    (tmpl parent : Certificate) (pub : Option PubKey) (priv : PrivKey)
    (h : Event.createCertificate tmpl parent pub priv ∈ (GenCrt e host fs).trace) :
    parent = tmpl
    ∧ tmpl.KeyUsage = KeyUsageDigitalSignature ||| KeyUsageKeyEncipherment ||| KeyUsageCertSign
    ∧ tmpl.KeyUsage = 37
    ∧ tmpl.KeyUsage &&& KeyUsageCertSign = KeyUsageCertSign
    ∧ tmpl.IsCA = true
    ∧ tmpl.BasicConstraintsValid = true := by
  obtain ⟨key, notBefore, serial, -, -, -, -, -, htmpl, hparent, -, -⟩ := createCertificate_mem h
  have hku := templateFor_KeyUsage e.ParseIP host serial notBefore
  have hfl := templateFor_flags e.ParseIP host serial notBefore
  rw [← htmpl] at hku hfl
  refine ⟨hparent, ?_, ?_, ?_, hfl.1, hfl.2⟩
  · rw [hku]; decide
  · rw [hku]; decide
  · rw [hku]; decide

/-- Witness of C9: the template of the sample run. -/
theorem template_is_signing_ca_witness :
    createCall sampleEnv "127.0.0.1,example.com" sampleKey 42 ⟨1793564940, 0, 0⟩
      ∈ (GenCrt sampleEnv "127.0.0.1,example.com" emptyFS).trace
    ∧ (templateFor sampleEnv.ParseIP "127.0.0.1,example.com" 42 ⟨1793564940, 0, 0⟩).KeyUsage = 37
    ∧ (templateFor sampleEnv.ParseIP "127.0.0.1,example.com" 42 ⟨1793564940, 0, 0⟩).IsCA = true :=
  ⟨sample_run_calls_create,
    (template_is_signing_ca sampleEnv "127.0.0.1,example.com" emptyFS _ _ _ _
      sample_run_calls_create).2.2.1,
    (template_is_signing_ca sampleEnv "127.0.0.1,example.com" emptyFS _ _ _ _
      sample_run_calls_create).2.2.2.2.1⟩


/-! ## C5, C6, C7: writing the two files -/

/-- A run that obtains the key, the creation time, the serial number and the
signed certificate goes on to write the files. -/
theorem GenCrt_reach (e : Env) (host : String) (fs : FS)
    (key : RSAPrivateKey) (notBefore : Time) (serial : Nat) (der : List Nat)
    (hpem : fs "burpServer.pem" = none) (hhost : host ≠ "")
    (hkey : e.GenerateKey 2048 = Except.ok key)
    (htime : Parse e.Now.Format = Except.ok notBefore)
    (hserial : e.randInt serialNumberLimit = Except.ok serial)
    (hcert : createResult e host key serial notBefore = Except.ok der) :
    GenCrt e host fs
      = persist e fs [Event.flagParse, Event.stat "./burpServer.pem", Event.generateKey 2048,
          Event.now, Event.randInt serialNumberLimit, createCall e host key serial notBefore]
          der (pkcs8Der (e.MarshalPKCS1PrivateKey key)) := by
  rw [GenCrt_of_absent e host fs hpem,
    generate_reach e host fs _ key notBefore serial hhost hkey htime hserial, hcert]
  rfl

theorem persist_create_fails (e : Env) (fs : FS) (tr : List Event) (der pkcs8 : List Nat)
    (err : String) (hopen : e.openErr "burpServer.pem" = some err) :
    persist e fs tr der pkcs8
      = ⟨Outcome.exited 1, fs, tr ++ [Event.create "burpServer.pem",
          Event.log ("failed to open burpServer.pem for writing: " ++ err)]⟩ := by
  simp [persist, Create, OpenFile, hopen]

/-- The file system after `os.Create("burpServer.pem")` and the write of the
certificate, when the file did not exist and the create succeeds. -/
theorem persist_cert_written (e : Env) (fs : FS) (hpem : fs "burpServer.pem" = none)
    (hopen : e.openErr "burpServer.pem" = none) :
    Create e fs "burpServer.pem"
      = Except.ok (fs.set "burpServer.pem" { mode := 0o666 ^^^ (0o666 &&& e.umask), data := [] }) := by
  have hflag : (O_RDWR ||| O_CREATE ||| O_TRUNC) &&& O_CREATE ≠ 0 := by decide
  simp only [Create, OpenFile, hopen, cleanName_pem, hpem, hflag, ne_eq, not_false_eq_true,
    if_true]


theorem pem_ne_key : "burpServer.pem" ≠ "burpServer.key" := by decide

/-- Counterexample to C5 as stated: when the create of burpServer.pem
succeeds and the write of the PEM text to it fails (here no byte is taken),
GenCrt does not end in the fatal outcome: it returns to its caller, leaves
burpServer.pem empty, and has opened and written burpServer.key. -/
theorem cert_write_failure_ignored :
    certWriteFailsEnv.openErr "burpServer.pem" = none
    ∧ certWriteFailsEnv.writeErr "burpServer.pem" = some (0, "no space left on device")
    ∧ (GenCrt certWriteFailsEnv "localhost" emptyFS).outcome = Outcome.returned
    ∧ (GenCrt certWriteFailsEnv "localhost" emptyFS).outcome ≠ Outcome.exited 1
    ∧ (GenCrt certWriteFailsEnv "localhost" emptyFS).fs "burpServer.pem"
        = some { mode := 0o644, data := [] }
    ∧ (GenCrt certWriteFailsEnv "localhost" emptyFS).fs "burpServer.key"
        = some { mode := 0o600,
                 data := certWriteFailsEnv.pemEncode
                   { Type_ := "PRIVATE KEY",
                     Bytes := pkcs8Der (certWriteFailsEnv.MarshalPKCS1PrivateKey sampleKey) } }
    ∧ Event.openFile "burpServer.key" (O_WRONLY ||| O_CREATE ||| O_TRUNC) 0o600
        ∈ (GenCrt certWriteFailsEnv "localhost" emptyFS).trace := by
  decide

/-- Once `os.Create("burpServer.pem")` has succeeded, GenCrt returns to its
caller: nothing after line 133 terminates the process. -/
theorem persist_returns (e : Env) (fs : FS) (tr : List Event) (der pkcs8 : List Nat)
    (hopen : e.openErr "burpServer.pem" = none) (hpem : fs "burpServer.pem" = none) :
    (persist e fs tr der pkcs8).outcome = Outcome.returned := by
  unfold persist
  rw [persist_cert_written e fs hpem hopen]
  simp only []
  split <;> rfl

/-- C5, amended. When GenCrt has the signed certificate in hand and
`os.Create("burpServer.pem")` fails, the process is terminated with status 1
(`log.Fatalf`), the file system is left as it was, and burpServer.key is
neither opened nor written. When the create succeeds, GenCrt returns to its
caller whatever becomes of the write of the PEM text, whose result is
discarded. -/
theorem cert_create_failure_fatal (e : Env) (host : String) (fs : FS)
    (key : RSAPrivateKey) (notBefore : Time) (serial : Nat) (der : List Nat)
    (hpem : fs "burpServer.pem" = none) (hhost : host ≠ "")
    (hkey : e.GenerateKey 2048 = Except.ok key)
    (htime : Parse e.Now.Format = Except.ok notBefore)
    (hserial : e.randInt serialNumberLimit = Except.ok serial)
    (hcert : createResult e host key serial notBefore = Except.ok der) :
    (∀ err, e.openErr "burpServer.pem" = some err →
      (GenCrt e host fs).outcome = Outcome.exited 1
      ∧ (GenCrt e host fs).fs = fs
      ∧ (GenCrt e host fs).trace.getLast?
          = some (Event.log ("failed to open burpServer.pem for writing: " ++ err))
      ∧ (∀ name flag perm, Event.openFile name flag perm ∉ (GenCrt e host fs).trace)
      ∧ (∀ name b, Event.pemEncode name b ∉ (GenCrt e host fs).trace))
    ∧ (e.openErr "burpServer.pem" = none → (GenCrt e host fs).outcome = Outcome.returned) := by
  rw [GenCrt_reach e host fs key notBefore serial der hpem hhost hkey htime hserial hcert]
  constructor
  · intro err hopen
    rw [persist_create_fails e fs _ der _ err hopen]
    simp [createCall]
  · intro hopen
    exact persist_returns e fs _ der _ hopen hpem

/-- Witness of C5 amended: the sample run when burpServer.pem cannot be
opened. -/
theorem cert_create_failure_fatal_witness :
    certOpenFailsEnv.openErr "burpServer.pem" = some "permission denied"
    ∧ (GenCrt certOpenFailsEnv "127.0.0.1,example.com" emptyFS).outcome = Outcome.exited 1
    ∧ (GenCrt certOpenFailsEnv "127.0.0.1,example.com" emptyFS).fs = emptyFS :=
  ⟨rfl,
   ((cert_create_failure_fatal certOpenFailsEnv "127.0.0.1,example.com" emptyFS sampleKey
      ⟨1793564940, 0, 0⟩ 42 [0x30, 42] rfl (by decide) rfl (by decide) rfl rfl).1
      "permission denied" rfl).1,
   ((cert_create_failure_fatal certOpenFailsEnv "127.0.0.1,example.com" emptyFS sampleKey
      ⟨1793564940, 0, 0⟩ 42 [0x30, 42] rfl (by decide) rfl (by decide) rfl rfl).1
      "permission denied" rfl).2.1⟩

/-- C6. When every step up to and including the write of burpServer.pem
succeeds and `os.OpenFile("burpServer.key", ...)` fails, GenCrt returns to
its caller; burpServer.pem holds the PEM text of the certificate just signed,
every other file, burpServer.key among them, is as it was, and no PEM text is
written for the key. -/
theorem key_open_failure_keeps_certificate (e : Env) (host : String) (fs : FS)
    (key : RSAPrivateKey) (notBefore : Time) (serial : Nat) (der : List Nat) (err : String)
    (hpem : fs "burpServer.pem" = none) (hhost : host ≠ "")
    (hkey : e.GenerateKey 2048 = Except.ok key)
    (htime : Parse e.Now.Format = Except.ok notBefore)
    (hserial : e.randInt serialNumberLimit = Except.ok serial)
    (hcert : createResult e host key serial notBefore = Except.ok der)
    (hopen : e.openErr "burpServer.pem" = none)
    (hwrite : e.writeErr "burpServer.pem" = none)
    (hkeyopen : e.openErr "burpServer.key" = some err) :
    (GenCrt e host fs).outcome = Outcome.returned
    ∧ (GenCrt e host fs).fs "burpServer.pem"
        = some { mode := 0o666 ^^^ (0o666 &&& e.umask),
                 data := e.pemEncode { Type_ := "CERTIFICATE", Bytes := der } }
    ∧ (GenCrt e host fs).fs "burpServer.key" = fs "burpServer.key"
    ∧ (∀ name, name ≠ "burpServer.pem" → (GenCrt e host fs).fs name = fs name)
    ∧ (∀ b, Event.pemEncode "burpServer.key" b ∉ (GenCrt e host fs).trace)
    ∧ (GenCrt e host fs).trace.getLast?
        = some (Event.log ("failed to open burpServer.key for writing:" ++ err)) := by
  rw [GenCrt_reach e host fs key notBefore serial der hpem hhost hkey htime hserial hcert]
  unfold persist
  rw [persist_cert_written e fs hpem hopen]
  simp only [OpenFile, hkeyopen]
  refine ⟨trivial, ?_, ?_, ?_, ?_, ?_⟩
  · simp [writeFile, FS.set, cleanName_pem, hwrite]
  · simp [writeFile, FS.set, cleanName_pem, hwrite]
  · intro name hname
    simp [writeFile, FS.set, cleanName_pem, hwrite, hname]
  · simp [createCall]
  · simp

/-- Witness of C6: the sample run when burpServer.key cannot be opened. -/
theorem key_open_failure_keeps_certificate_witness :
    keyOpenFailsEnv.openErr "burpServer.key" = some "permission denied"
    ∧ (GenCrt keyOpenFailsEnv "127.0.0.1,example.com" emptyFS).outcome = Outcome.returned
    ∧ (GenCrt keyOpenFailsEnv "127.0.0.1,example.com" emptyFS).fs "burpServer.pem"
        = some { mode := 0o666 ^^^ (0o666 &&& keyOpenFailsEnv.umask),
                 data := keyOpenFailsEnv.pemEncode { Type_ := "CERTIFICATE", Bytes := [0x30, 42] } }
    ∧ (GenCrt keyOpenFailsEnv "127.0.0.1,example.com" emptyFS).fs "burpServer.key" = none :=
  ⟨rfl,
   (key_open_failure_keeps_certificate keyOpenFailsEnv "127.0.0.1,example.com" emptyFS sampleKey
      ⟨1793564940, 0, 0⟩ 42 [0x30, 42] "permission denied" rfl (by decide) rfl (by decide) rfl
      rfl rfl rfl rfl).1,
   (key_open_failure_keeps_certificate keyOpenFailsEnv "127.0.0.1,example.com" emptyFS sampleKey
      ⟨1793564940, 0, 0⟩ 42 [0x30, 42] "permission denied" rfl (by decide) rfl (by decide) rfl
      rfl rfl rfl rfl).2.1,
   (key_open_failure_keeps_certificate keyOpenFailsEnv "127.0.0.1,example.com" emptyFS sampleKey
      ⟨1793564940, 0, 0⟩ 42 [0x30, 42] "permission denied" rfl (by decide) rfl (by decide) rfl
      rfl rfl rfl rfl).2.2.1⟩

/-- C7. For a non-empty host, when burpServer.pem does not exist and every
generation and I/O step succeeds, GenCrt returns to its caller having written
two files and touched no other: burpServer.pem holds the PEM text of one
block of type "CERTIFICATE" whose bytes are the DER that
`x509.CreateCertificate` returned for the template (as subject and issuer),
the public half of the generated key and that key as signer; burpServer.key,
opened with `O_WRONLY|O_CREATE|O_TRUNC` and mode 0600, holds the PEM text of
one block of type "PRIVATE KEY" whose bytes are what `MarshalPKCS8PrivateKey`
returns for the same key. A key file created by the call gets mode 0600 less
the umask; one that existed is truncated and keeps its mode. -/
theorem both_files_written (e : Env) (host : String) (fs : FS)
    (key : RSAPrivateKey) (notBefore : Time) (serial : Nat) (der : List Nat)
    (hpem : fs "burpServer.pem" = none) (hhost : host ≠ "")
    (hkey : e.GenerateKey 2048 = Except.ok key)
    (htime : Parse e.Now.Format = Except.ok notBefore)
    (hserial : e.randInt serialNumberLimit = Except.ok serial)
    (hcert : e.CreateCertificate (templateFor e.ParseIP host serial notBefore)
      (templateFor e.ParseIP host serial notBefore) (some (PubKey.rsa key.PublicKey))
      (PrivKey.rsa key) = Except.ok der)
    (hopen : e.openErr "burpServer.pem" = none)
    (hwrite : e.writeErr "burpServer.pem" = none)
    (hkeyopen : e.openErr "burpServer.key" = none)
    (hkeywrite : e.writeErr "burpServer.key" = none) :
    (GenCrt e host fs).outcome = Outcome.returned
    ∧ (GenCrt e host fs).fs "burpServer.pem"
        = some { mode := 0o666 ^^^ (0o666 &&& e.umask),
                 data := e.pemEncode { Type_ := "CERTIFICATE", Bytes := der } }
    ∧ (∃ pkcs8Bytes,
        MarshalPKCS8PrivateKey e.MarshalPKCS1PrivateKey key = Except.ok pkcs8Bytes
        ∧ (GenCrt e host fs).fs "burpServer.key"
            = some { mode := (match fs "burpServer.key" with
                              | some f => f.mode
                              | none => 0o600 ^^^ (0o600 &&& e.umask)),
                     data := e.pemEncode { Type_ := "PRIVATE KEY", Bytes := pkcs8Bytes } })
    ∧ (∀ name, name ≠ "burpServer.pem" → name ≠ "burpServer.key" →
        (GenCrt e host fs).fs name = fs name)
    ∧ Event.openFile "burpServer.key" (O_WRONLY ||| O_CREATE ||| O_TRUNC) 0o600
        ∈ (GenCrt e host fs).trace
    ∧ (∀ name, Event.create name ∈ (GenCrt e host fs).trace → name = "burpServer.pem")
    ∧ (∀ name flag perm, Event.openFile name flag perm ∈ (GenCrt e host fs).trace →
        name = "burpServer.key")
    ∧ (∀ name b, Event.pemEncode name b ∈ (GenCrt e host fs).trace →
        (name = "burpServer.pem" ∧ b = { Type_ := "CERTIFICATE", Bytes := der })
        ∨ (name = "burpServer.key" ∧ b.Type_ = "PRIVATE KEY")) := by
  have hcert2 : createResult e host key serial notBefore = Except.ok der := hcert
  have hflagT : (O_WRONLY ||| O_CREATE ||| O_TRUNC) &&& O_TRUNC ≠ 0 := by decide
  have hflagC : (O_WRONLY ||| O_CREATE ||| O_TRUNC) &&& O_CREATE ≠ 0 := by decide
  have hne := pem_ne_key
  rw [GenCrt_reach e host fs key notBefore serial der hpem hhost hkey htime hserial hcert2]
  unfold persist
  rw [persist_cert_written e fs hpem hopen]
  cases hk : fs "burpServer.key" with
  | none =>
    simp only [OpenFile, hkeyopen, writeFile, FS.set, cleanName_pem, cleanName_key, hwrite,
      hkeywrite, hk, hne, hne.symm, if_true, if_false, hflagC, ne_eq, not_false_eq_true]
    refine ⟨trivial, ?_, ⟨_, MarshalPKCS8PrivateKey_ok _ _, ?_⟩, ?_, ?_, ?_, ?_, ?_⟩
    · simp [hne]
    · simp
    · intro name h1 h2
      simp [h1, h2]
    · simp
    · simp [createCall]
    · simp only [createCall, List.mem_append, List.mem_cons, List.mem_singleton,
        List.not_mem_nil, reduceCtorEq, Event.openFile.injEq, or_false, false_or]
      intro name flag perm h
      exact h.1
    · simp only [createCall, List.mem_append, List.mem_cons, List.mem_singleton,
        List.not_mem_nil, reduceCtorEq, Event.pemEncode.injEq, or_false, false_or]
      intro name b h
      rcases h with h | h
      · exact Or.inl h
      · exact Or.inr ⟨h.1, by rw [h.2]⟩
  | some f =>
    simp only [OpenFile, hkeyopen, writeFile, FS.set, cleanName_pem, cleanName_key, hwrite,
      hkeywrite, hk, hne, hne.symm, if_true, if_false, hflagT, ne_eq, not_false_eq_true]
    refine ⟨trivial, ?_, ⟨_, MarshalPKCS8PrivateKey_ok _ _, ?_⟩, ?_, ?_, ?_, ?_, ?_⟩
    · simp [hne]
    · simp
    · intro name h1 h2
      simp [h1, h2]
    · simp
    · simp [createCall]
    · simp only [createCall, List.mem_append, List.mem_cons, List.mem_singleton,
        List.not_mem_nil, reduceCtorEq, Event.openFile.injEq, or_false, false_or]
      intro name flag perm h
      exact h.1
    · simp only [createCall, List.mem_append, List.mem_cons, List.mem_singleton,
        List.not_mem_nil, reduceCtorEq, Event.pemEncode.injEq, or_false, false_or]
      intro name b h
      rcases h with h | h
      · exact Or.inl h
      · exact Or.inr ⟨h.1, by rw [h.2]⟩

/-- Witness of C7: the sample run on an empty directory writes the two
files. -/
theorem both_files_written_witness :
    (GenCrt sampleEnv "127.0.0.1,example.com" emptyFS).outcome = Outcome.returned
    ∧ (GenCrt sampleEnv "127.0.0.1,example.com" emptyFS).fs "burpServer.pem"
        = some { mode := 0o666 ^^^ (0o666 &&& sampleEnv.umask),
                 data := sampleEnv.pemEncode { Type_ := "CERTIFICATE", Bytes := [0x30, 42] } }
    ∧ (∀ name, name ≠ "burpServer.pem" → name ≠ "burpServer.key" →
        (GenCrt sampleEnv "127.0.0.1,example.com" emptyFS).fs name = emptyFS name) :=
  ⟨(both_files_written sampleEnv "127.0.0.1,example.com" emptyFS sampleKey
      ⟨1793564940, 0, 0⟩ 42 [0x30, 42] rfl (by decide) rfl (by decide) rfl rfl rfl rfl rfl rfl).1,
   (both_files_written sampleEnv "127.0.0.1,example.com" emptyFS sampleKey
      ⟨1793564940, 0, 0⟩ 42 [0x30, 42] rfl (by decide) rfl (by decide) rfl rfl rfl rfl rfl rfl).2.1,
   (both_files_written sampleEnv "127.0.0.1,example.com" emptyFS sampleKey
      ⟨1793564940, 0, 0⟩ 42 [0x30, 42] rfl (by decide) rfl (by decide) rfl rfl rfl rfl rfl
      rfl).2.2.2.1⟩


/-! ## C8: the PKCS8 container -/

theorem lengthLengthLoop_spec (fuel : Nat) :
    ∀ numBytes i, i ≤ fuel →
      ∃ k, lengthLengthLoop fuel numBytes i = numBytes + k ∧ i < 256 ^ (k + 1)
        ∧ (k = 0 ∨ 256 ^ k ≤ i) := by
  induction fuel with
  | zero =>
    intro numBytes i hi
    exact ⟨0, by simp [lengthLengthLoop], by omega, Or.inl rfl⟩
  | succ fuel ih =>
    intro numBytes i hi
    unfold lengthLengthLoop
    by_cases h : i > 255
    · rw [if_pos h]
      have hshift : i >>> 8 = i / 256 := by
        rw [Nat.shiftRight_eq_div_pow]
      have hle : i / 256 ≤ fuel := by omega
      obtain ⟨k, hk, hlt, hge⟩ := ih (numBytes + 1) (i / 256) hle
      refine ⟨k + 1, ?_, ?_, Or.inr ?_⟩
      · rw [hshift, hk]; omega
      · rw [Nat.pow_succ]
        omega
      · rcases hge with h0 | hge
        · subst h0
          simp
          omega
        · rw [Nat.pow_succ]
          omega
    · rw [if_neg h]
      exact ⟨0, by simp, by omega, Or.inl rfl⟩

theorem lengthLength_spec (i : Nat) :
    1 ≤ lengthLength i ∧ i < 256 ^ lengthLength i
      ∧ (i < 256 ^ 8 → lengthLength i ≤ 8) := by
  obtain ⟨k, hk, hlt, hge⟩ := lengthLengthLoop_spec i 1 i (Nat.le_refl i)
  unfold lengthLength
  rw [hk, Nat.add_comm 1 k]
  refine ⟨by omega, hlt, ?_⟩
  intro hi
  rcases hge with h0 | hge
  · omega
  · have hlt8 : 256 ^ k < 256 ^ 8 := Nat.lt_of_le_of_lt hge hi
    have : k < 8 := (Nat.pow_lt_pow_iff_right (by decide : 1 < 256)).mp hlt8
    omega

theorem appendLengthLoop_length (n i : Nat) : (appendLengthLoop n i).length = n := by
  induction n with
  | zero => rfl
  | succ n ih => simp [appendLengthLoop, ih]

theorem appendLengthLoop_value (n i acc : Nat) :
    (appendLengthLoop n i).foldl (fun a x => a * 256 + x) acc = acc * 256 ^ n + i % 256 ^ n := by
  induction n generalizing acc with
  | zero => simp [appendLengthLoop, Nat.mod_one]
  | succ n ih =>
    have hshift : i >>> (n * 8) = i / 256 ^ n := by
      rw [Nat.shiftRight_eq_div_pow, Nat.mul_comm, Nat.pow_mul]
    have hmod : i % 256 ^ (n + 1) = i % 256 ^ n + 256 ^ n * (i / 256 ^ n % 256) := by
      rw [Nat.pow_succ, Nat.mod_mul]
    simp only [appendLengthLoop, List.foldl_cons, ih, hshift, hmod]
    ring

theorem appendLength_value (i : Nat) :
    (appendLength i).foldl (fun a x => a * 256 + x) 0 = i := by
  unfold appendLength
  rw [appendLengthLoop_value]
  simp [Nat.mod_eq_of_lt (lengthLength_spec i).2.1]


theorem lor_length_count (n : Nat) (h1 : 1 ≤ n) (h8 : n ≤ 8) : 0x80 ||| (n % 256) = 128 + n := by
  interval_cases n <;> rfl

/-- The reader returns the body and the rest of the text of an element
written by the DER writer, for a tag below 31 and a body of a length that a
Go `int` can hold. -/
theorem readElement_taggedEncoder (tag : Nat) (isCompound : Bool) (body rest : List Nat)
    (htag : tag < 31) (hlen : body.length < 256 ^ 8) :
    readElement ((if isCompound then 0x20 else 0) ||| tag)
        (taggedEncoder tag isCompound body ++ rest)
      = some (body, rest) := by
  have hnot : ¬ tag ≥ 31 := by omega
  unfold taggedEncoder appendTagAndLength
  simp only [hnot, if_false]
  by_cases hshort : body.length ≥ 128
  · obtain ⟨h1, hlt, h8⟩ := lengthLength_spec body.length
    have hll := h8 hlen
    have hb := lor_length_count (lengthLength body.length) h1 hll
    have htake : List.take (lengthLength body.length)
        (appendLength body.length ++ (body ++ rest)) = appendLength body.length := by
      rw [List.take_append_of_le_length (by simp [appendLength, appendLengthLoop_length])]
      exact List.take_of_length_le (by simp [appendLength, appendLengthLoop_length])
    have hdrop : List.drop (lengthLength body.length)
        (appendLength body.length ++ (body ++ rest)) = body ++ rest := by
      have hl : (appendLength body.length).length = lengthLength body.length := by
        simp [appendLength, appendLengthLoop_length]
      rw [← hl, List.drop_left]
    simp only [hshort, if_true, List.singleton_append, List.cons_append, List.append_assoc,
      List.nil_append, readElement, ne_eq, not_true_eq_false, if_false, readLength, hb]
    have h128 : ¬ 128 + lengthLength body.length < 128 := by omega
    have hsub : 128 + lengthLength body.length - 128 = lengthLength body.length := by omega
    have hcond : ¬ (128 + lengthLength body.length = 128
        ∨ (appendLength body.length ++ (body ++ rest)).length < lengthLength body.length) := by
      simp [appendLength, appendLengthLoop_length]
      omega
    simp only [h128, if_false, hsub, hcond, htake, hdrop, appendLength_value]
    simp
  · have hlt : body.length < 128 := by omega
    have hmod : body.length % 256 = body.length := Nat.mod_eq_of_lt (by omega)
    simp only [hshort, if_false, List.singleton_append, List.cons_append, List.append_assoc,
      List.nil_append, readElement, ne_eq, not_true_eq_false, readLength, hmod, hlt, if_true]
    simp

theorem taggedEncoder_length_le (tag : Nat) (isCompound : Bool) (body : List Nat)
    (htag : tag < 31) (hlen : body.length < 256 ^ 8) :
    (taggedEncoder tag isCompound body).length ≤ body.length + 10 := by
  have hnot : ¬ tag ≥ 31 := by omega
  obtain ⟨h1, hlt, h8⟩ := lengthLength_spec body.length
  have hll := h8 hlen
  unfold taggedEncoder appendTagAndLength
  simp only [hnot, if_false]
  split_ifs <;> simp [appendLength, appendLengthLoop_length] <;> omega


theorem decode_pkcs8Der (pkcs1 : List Nat) (hlen : pkcs1.length < 2 ^ 63) :
    decodePKCS8Key (pkcs8Der pkcs1)
      = some { Version := 0, PrivateKeyAlgorithm := [[1, 2, 840, 113549, 1, 1, 1]],
               PrivateKey := pkcs1 } := by
  have hk : pkcs1.length < 256 ^ 8 := by
    have : (2 : Nat) ^ 63 < 256 ^ 8 := by decide
    omega
  have hkeylen := taggedEncoder_length_le TagOctetString false pkcs1 (by decide) hk
  have hver : ([2, 1, 0] : List Nat) = taggedEncoder TagInteger false [0] := by decide
  have halg : (taggedEncoder TagSequence true [6, 9, 42, 134, 72, 134, 247, 13, 1, 1, 1]).length
      = 13 := by decide
  have h4 : readElement 0x04 (taggedEncoder TagOctetString false pkcs1)
      = some (pkcs1, []) := by
    simpa [TagOctetString] using readElement_taggedEncoder TagOctetString false pkcs1 []
      (by decide) hk
  have h3 : readElement 0x30
      (taggedEncoder TagSequence true [6, 9, 42, 134, 72, 134, 247, 13, 1, 1, 1]
        ++ taggedEncoder TagOctetString false pkcs1)
      = some ([6, 9, 42, 134, 72, 134, 247, 13, 1, 1, 1],
          taggedEncoder TagOctetString false pkcs1) := by
    simpa [TagSequence] using readElement_taggedEncoder TagSequence true
      [6, 9, 42, 134, 72, 134, 247, 13, 1, 1, 1]
      (taggedEncoder TagOctetString false pkcs1) (by decide) (by decide)
  have h2 : readElement 0x02
      (taggedEncoder TagInteger false [0]
        ++ (taggedEncoder TagSequence true [6, 9, 42, 134, 72, 134, 247, 13, 1, 1, 1]
          ++ taggedEncoder TagOctetString false pkcs1))
      = some ([0], taggedEncoder TagSequence true [6, 9, 42, 134, 72, 134, 247, 13, 1, 1, 1]
          ++ taggedEncoder TagOctetString false pkcs1) := by
    simpa [TagInteger] using readElement_taggedEncoder TagInteger false [0]
      (taggedEncoder TagSequence true [6, 9, 42, 134, 72, 134, 247, 13, 1, 1, 1]
        ++ taggedEncoder TagOctetString false pkcs1) (by decide) (by decide)
  have hinner : (taggedEncoder TagInteger false [0]
        ++ (taggedEncoder TagSequence true [6, 9, 42, 134, 72, 134, 247, 13, 1, 1, 1]
          ++ taggedEncoder TagOctetString false pkcs1)).length < 256 ^ 8 := by
    have h3len : (taggedEncoder TagInteger false [0]).length = 3 := by decide
    have h63 : (2 : Nat) ^ 63 + 100 < 256 ^ 8 := by decide
    simp only [List.length_append, halg, h3len]
    omega
  have h1 : readElement 0x30
      (taggedEncoder TagSequence true
        (taggedEncoder TagInteger false [0]
          ++ (taggedEncoder TagSequence true [6, 9, 42, 134, 72, 134, 247, 13, 1, 1, 1]
            ++ taggedEncoder TagOctetString false pkcs1)))
      = some (taggedEncoder TagInteger false [0]
          ++ (taggedEncoder TagSequence true [6, 9, 42, 134, 72, 134, 247, 13, 1, 1, 1]
            ++ taggedEncoder TagOctetString false pkcs1), []) := by
    simpa [TagSequence] using readElement_taggedEncoder TagSequence true _ [] (by decide) hinner
  have hint : decodeInteger [0] = some 0 := by decide
  have hoids : decodeOIDs ([6, 9, 42, 134, 72, 134, 247, 13, 1, 1, 1] : List Nat).length
      [6, 9, 42, 134, 72, 134, 247, 13, 1, 1, 1] = some [[1, 2, 840, 113549, 1, 1, 1]] := by
    decide
  have hshape : pkcs8Der pkcs1
      = taggedEncoder TagSequence true
        (taggedEncoder TagInteger false [0]
          ++ (taggedEncoder TagSequence true [6, 9, 42, 134, 72, 134, 247, 13, 1, 1, 1]
            ++ taggedEncoder TagOctetString false pkcs1)) := by
    rw [← hver]
    simp [pkcs8Der]
  rw [hshape]
  unfold decodePKCS8Key
  rw [h1]
  simp only [h2, h3, h4, hint, hoids]

/-- C8. For every RSA private key, `MarshalPKCS8PrivateKey` returns no
error. Its output, read as a DER
`SEQUENCE { INTEGER, SEQUENCE OF OBJECT IDENTIFIER, OCTET STRING }`, has
version 0, the single object identifier 1.2.840.113549.1.1.1, and key bytes
equal to the PKCS1 encoding of the key (the output of
`x509.MarshalPKCS1PrivateKey`, whose length, that of a Go slice, is below
`2^63`). -/
theorem pkcs8_container (marshalPKCS1 : RSAPrivateKey → List Nat) (key : RSAPrivateKey)
    (hlen : (marshalPKCS1 key).length < 2 ^ 63) :
    ∃ der, MarshalPKCS8PrivateKey marshalPKCS1 key = Except.ok der
      ∧ der = pkcs8Der (marshalPKCS1 key)
      ∧ decodePKCS8Key der
          = some { Version := 0, PrivateKeyAlgorithm := [[1, 2, 840, 113549, 1, 1, 1]],
                   PrivateKey := marshalPKCS1 key } :=
  ⟨pkcs8Der (marshalPKCS1 key), MarshalPKCS8PrivateKey_ok marshalPKCS1 key, rfl,
    decode_pkcs8Der (marshalPKCS1 key) hlen⟩

/-- Witness of C8: the sample key with its two-byte stand-in for the PKCS1
encoding. -/
theorem pkcs8_container_witness :
    (sampleEnv.MarshalPKCS1PrivateKey sampleKey).length < 2 ^ 63
    ∧ ∃ der, MarshalPKCS8PrivateKey sampleEnv.MarshalPKCS1PrivateKey sampleKey = Except.ok der
      ∧ der = pkcs8Der (sampleEnv.MarshalPKCS1PrivateKey sampleKey)
      ∧ decodePKCS8Key der
          = some { Version := 0, PrivateKeyAlgorithm := [[1, 2, 840, 113549, 1, 1, 1]],
                   PrivateKey := sampleEnv.MarshalPKCS1PrivateKey sampleKey } :=
  ⟨by decide, pkcs8_container sampleEnv.MarshalPKCS1PrivateKey sampleKey (by decide)⟩


/-! ## time: what `Format` writes, `time.Parse` reads back -/

theorem toDigitsCore_small (fuel n : Nat) (ds : List Char) (h : n < 10) :
    Nat.toDigitsCore 10 (fuel + 1) n ds = Nat.digitChar n :: ds := by
  have h1 : n % 10 = n := Nat.mod_eq_of_lt h
  have h2 : n / 10 = 0 := Nat.div_eq_of_lt h
  simp [Nat.toDigitsCore, h1, h2]

theorem toDigitsCore_step (fuel n : Nat) (ds : List Char) (h : 10 ≤ n) :
    Nat.toDigitsCore 10 (fuel + 1) n ds
      = Nat.toDigitsCore 10 fuel (n / 10) (Nat.digitChar (n % 10) :: ds) := by
  have h2 : n / 10 ≠ 0 := by omega
  simp [Nat.toDigitsCore, h2]

theorem toDigits_1 (n : Nat) (h : n < 10) : Nat.toDigits 10 n = [Nat.digitChar n] := by
  simp [Nat.toDigits, toDigitsCore_small _ _ _ h]

theorem toDigits_2 (n : Nat) (h0 : 10 ≤ n) (h : n < 100) :
    Nat.toDigits 10 n = [Nat.digitChar (n / 10), Nat.digitChar (n % 10)] := by
  obtain ⟨m, rfl⟩ : ∃ m, n = m + 1 := ⟨n - 1, by omega⟩
  unfold Nat.toDigits
  rw [toDigitsCore_step _ _ _ h0, toDigitsCore_small _ _ _ (by omega)]

theorem toDigits_3 (n : Nat) (h0 : 100 ≤ n) (h : n < 1000) :
    Nat.toDigits 10 n
      = [Nat.digitChar (n / 100), Nat.digitChar (n / 10 % 10), Nat.digitChar (n % 10)] := by
  obtain ⟨m, rfl⟩ : ∃ m, n = m + 2 := ⟨n - 2, by omega⟩
  unfold Nat.toDigits
  rw [toDigitsCore_step _ _ _ (by omega), toDigitsCore_step _ _ _ (by omega),
    toDigitsCore_small _ _ _ (by omega)]
  have : (m + 2) / 10 / 10 = (m + 2) / 100 := by omega
  rw [this]

theorem toDigits_4 (n : Nat) (h0 : 1000 ≤ n) (h : n < 10000) :
    Nat.toDigits 10 n
      = [Nat.digitChar (n / 1000), Nat.digitChar (n / 100 % 10), Nat.digitChar (n / 10 % 10),
          Nat.digitChar (n % 10)] := by
  obtain ⟨m, rfl⟩ : ∃ m, n = m + 3 := ⟨n - 3, by omega⟩
  unfold Nat.toDigits
  rw [toDigitsCore_step _ _ _ (by omega), toDigitsCore_step _ _ _ (by omega),
    toDigitsCore_step _ _ _ (by omega), toDigitsCore_small _ _ _ (by omega)]
  have h1 : (m + 3) / 10 / 10 / 10 = (m + 3) / 1000 := by omega
  have h2 : (m + 3) / 10 / 10 % 10 = (m + 3) / 100 % 10 := by omega
  rw [h1, h2]

theorem digitChar_zero : Nat.digitChar 0 = '0' := rfl

theorem appendInt_2 (n : Nat) (h : n < 100) :
    appendInt (n : Int) 2 = [Nat.digitChar (n / 10), Nat.digitChar (n % 10)] := by
  have hneg : ¬ ((n : Int) < 0) := by omega
  simp only [appendInt, hneg, if_false, Int.natAbs_ofNat, List.nil_append]
  by_cases h10 : n < 10
  · have h1 : n / 10 = 0 := Nat.div_eq_of_lt h10
    have h2 : n % 10 = n := Nat.mod_eq_of_lt h10
    rw [toDigits_1 n h10, h1, h2]
    rfl
  · rw [toDigits_2 n (by omega) h]
    rfl

theorem appendInt_4 (n : Nat) (h : n < 10000) :
    appendInt (n : Int) 4
      = [Nat.digitChar (n / 1000), Nat.digitChar (n / 100 % 10), Nat.digitChar (n / 10 % 10),
          Nat.digitChar (n % 10)] := by
  have hneg : ¬ ((n : Int) < 0) := by omega
  simp only [appendInt, hneg, if_false, Int.natAbs_ofNat, List.nil_append]
  by_cases h10 : n < 10
  · have h1 : n / 1000 = 0 := by omega
    have h2 : n / 100 % 10 = 0 := by omega
    have h3 : n / 10 % 10 = 0 := by omega
    have h4 : n % 10 = n := by omega
    rw [toDigits_1 n h10, h1, h2, h3, h4]
    rfl
  · by_cases h100 : n < 100
    · have h1 : n / 1000 = 0 := by omega
      have h2 : n / 100 % 10 = 0 := by omega
      have h3 : n / 10 % 10 = n / 10 := by omega
      rw [toDigits_2 n (by omega) h100, h1, h2, h3]
      rfl
    · by_cases h1000 : n < 1000
      · have h1 : n / 1000 = 0 := by omega
        have h2 : n / 100 % 10 = n / 100 := by omega
        rw [toDigits_3 n (by omega) h1000, h1, h2]
        rfl
      · rw [toDigits_4 n (by omega) h]
        rfl

theorem appendInt_0 (n : Nat) (h : n < 100) :
    appendInt (n : Int) 0
      = if n < 10 then [Nat.digitChar n] else [Nat.digitChar (n / 10), Nat.digitChar (n % 10)] := by
  have hneg : ¬ ((n : Int) < 0) := by omega
  simp only [appendInt, hneg, if_false, Int.natAbs_ofNat, List.nil_append, Nat.zero_sub,
    List.replicate_zero]
  by_cases h10 : n < 10
  · rw [if_pos h10, toDigits_1 n h10]
  · rw [if_neg h10, toDigits_2 n (by omega) h]

theorem isDigit_digitChar (k : Nat) (h : k < 10) : isDigit (Nat.digitChar k) = true := by
  interval_cases k <;> decide

theorem digitVal_digitChar (k : Nat) (h : k < 10) : digitVal (Nat.digitChar k) = k := by
  interval_cases k <;> decide

theorem digitChar_ne_space (k : Nat) (h : k < 10) : Nat.digitChar k ≠ ' ' := by
  interval_cases k <;> decide

/-- Go `absDate` inverts `daysSinceEpoch`: the year and the day of the year
add up to the day, and day 365 occurs in leap years only. -/
theorem absDate_spec (d : Int) :
    daysSinceEpoch (absDate d).1 + (absDate d).2 = d
    ∧ 0 ≤ (absDate d).2 ∧ (absDate d).2 ≤ 365
    ∧ ((absDate d).2 = 365 → isLeap (absDate d).1 = true) := by
  obtain ⟨n400, h400⟩ : ∃ n, d / 146097 = n := ⟨_, rfl⟩
  obtain ⟨r100, h100⟩ : ∃ n, (d - 146097 * n400) / 36524 = n := ⟨_, rfl⟩
  have b100 : 0 ≤ r100 ∧ r100 ≤ 4 := by omega
  obtain ⟨n100, hn100⟩ : ∃ n, r100 - r100 / 4 = n := ⟨_, rfl⟩
  have c100 : 0 ≤ n100 ∧ n100 ≤ 3 := by omega
  obtain ⟨n4, h4⟩ : ∃ n, (d - 146097 * n400 - 36524 * n100) / 1461 = n := ⟨_, rfl⟩
  have b4 : 0 ≤ n4 ∧ n4 ≤ 24 := by omega
  obtain ⟨r1, h1⟩ : ∃ n, (d - 146097 * n400 - 36524 * n100 - 1461 * n4) / 365 = n := ⟨_, rfl⟩
  have b1 : 0 ≤ r1 ∧ r1 ≤ 4 := by omega
  obtain ⟨n1, hn1⟩ : ∃ n, r1 - r1 / 4 = n := ⟨_, rfl⟩
  have c1 : 0 ≤ n1 ∧ n1 ≤ 3 := by omega
  simp only [absDate, h400, h100, hn100, h4, h1, hn1, daysSinceEpoch, isLeap_iff]
  have e400 : (400 * n400 + 100 * n100 + 4 * n4 + n1 + 1 - 1) / 400 = n400 := by omega
  simp only [e400]
  have e100 : (400 * n400 + 100 * n100 + 4 * n4 + n1 + 1 - 1 - 400 * n400) / 100 = n100 := by
    omega
  simp only [e100]
  have e4 : (400 * n400 + 100 * n100 + 4 * n4 + n1 + 1 - 1 - 400 * n400 - 100 * n100) / 4
      = n4 := by omega
  simp only [e4]
  refine ⟨?_, ?_, ?_, ?_⟩ <;> omega


theorem monthDay_spec (year yday : Int) (h0 : 0 ≤ yday) (h1 : yday ≤ 365)
    (hl : yday = 365 → isLeap year = true) :
    1 ≤ (monthDay year yday).1 ∧ (monthDay year yday).1 ≤ 12
    ∧ 1 ≤ (monthDay year yday).2
    ∧ (monthDay year yday).2 ≤ daysIn (monthDay year yday).1 year
    ∧ daysBefore ((monthDay year yday).1 - 1)
        + (if isLeap year = true ∧ (monthDay year yday).1 ≥ 3 then 1 else 0)
        + (((monthDay year yday).2 : Int) - 1) = yday := by
  unfold monthDay
  by_cases hleap : isLeap year = true
  · by_cases hday : yday = 31 + 29 - 1
    · simp [hleap, hday, daysIn, daysBefore]
    · simp only [hleap, hday, true_and, and_false, if_false]
      obtain ⟨day, hd⟩ : ∃ day : Int, (if yday > 31 + 29 - 1 then yday - 1 else yday) = day :=
        ⟨_, rfl⟩
      rw [hd]
      have hd2 : (yday > 59 ∧ day = yday - 1) ∨ (yday ≤ 58 ∧ day = yday) := by
        split_ifs at hd <;> omega
      clear hd
      obtain ⟨k, hk⟩ : ∃ k : Nat, (day / 31).toNat = k := ⟨_, rfl⟩
      have hk11 : k ≤ 11 := by omega
      rw [hk]
      interval_cases k <;> simp only [Nat.reduceAdd, daysBefore] <;> split_ifs <;>
        simp only [Nat.reduceAdd, Nat.reduceSub, daysBefore, daysIn, hleap] <;>
        simp <;> omega
  · have hy : yday ≤ 364 := by
      by_contra hcon
      exact hleap (hl (by omega))
    simp only [hleap, Bool.false_eq_true, false_and, if_false]
    obtain ⟨k, hk⟩ : ∃ k : Nat, (yday / 31).toNat = k := ⟨_, rfl⟩
    have hk11 : k ≤ 11 := by omega
    rw [hk]
    interval_cases k <;> simp only [Nat.reduceAdd, daysBefore] <;> split_ifs <;>
      simp only [Nat.reduceAdd, Nat.reduceSub, daysBefore, daysIn, hleap] <;>
      simp <;> omega


theorem cutspace_cons (c : Char) (rest : List Char) (h : c ≠ ' ') :
    cutspace (c :: rest) = c :: rest := by
  unfold cutspace
  split
  · rename_i heq
    simp only [List.cons.injEq] at heq
    exact absurd heq.1 h
  · rfl

theorem skip_space (rest : List Char) : skip (' ' :: rest) [' '] = Except.ok (cutspace rest) := by
  simp [skip, skipLoop, cutspace]

theorem skip_colon (rest : List Char) : skip (':' :: rest) [':'] = Except.ok rest := by
  simp [skip, skipLoop]

theorem getnum_two (a b : Nat) (ha : a < 10) (hb : b < 10) (rest : List Char) (isFixed : Bool) :
    getnum (Nat.digitChar a :: Nat.digitChar b :: rest) isFixed = Except.ok (a * 10 + b, rest) := by
  simp [getnum, isDigit_digitChar a ha, isDigit_digitChar b hb, digitVal_digitChar a ha,
    digitVal_digitChar b hb]

theorem getnum_one (a : Nat) (ha : a < 10) (c : Char) (hc : isDigit c = false)
    (rest : List Char) :
    getnum (Nat.digitChar a :: c :: rest) false = Except.ok (a, c :: rest) := by
  simp [getnum, isDigit_digitChar a ha, digitVal_digitChar a ha, hc]

theorem lookup_dayName (wd : Nat) (h : wd < 7) (rest : List Char) :
    lookup shortDayNames ((shortDayNames.getD wd "").toList ++ rest) = Except.ok (wd, rest) := by
  interval_cases wd <;> simp [lookup, lookupFrom, shortDayNames, matchFold, String.length]

theorem lookup_monthName (m : Nat) (h : m < 12) (rest : List Char) :
    lookup shortMonthNames ((shortMonthNames.getD m "").toList ++ rest)
      = Except.ok (m, rest) := by
  interval_cases m <;> simp [lookup, lookupFrom, shortMonthNames, matchFold, String.length]

theorem dayName_head (wd : Nat) (h : wd < 7) :
    ∃ c cs, (shortDayNames.getD wd "").toList = c :: cs ∧ c ≠ ' ' := by
  interval_cases wd <;> exact ⟨_, _, rfl, by decide⟩

theorem monthName_head (m : Nat) (h : m < 12) :
    ∃ c cs, (shortMonthNames.getD m "").toList = c :: cs ∧ c ≠ ' ' := by
  interval_cases m <;> exact ⟨_, _, rfl, by decide⟩


theorem cutspace_append (l r : List Char) (h : ∃ c cs, l = c :: cs ∧ c ≠ ' ') :
    cutspace (l ++ r) = l ++ r := by
  obtain ⟨c, cs, rfl, hc⟩ := h
  exact cutspace_cons c (cs ++ r) hc

theorem isDigit_space : isDigit ' ' = false := by decide

theorem std_2_match (k : Nat) (h : k < 10) (rest : List Char) :
    (match Nat.digitChar k :: rest with
      | ' ' :: r => r
      | _ => Nat.digitChar k :: rest) = Nat.digitChar k :: rest := by
  split
  · rename_i heq
    simp only [List.cons.injEq] at heq
    exact absurd heq.1 (digitChar_ne_space k h)
  · rfl

theorem year_digits_val (year : Nat) (hy : year < 10000) :
    digitsVal [Nat.digitChar (year / 1000), Nat.digitChar (year / 100 % 10),
      Nat.digitChar (year / 10 % 10), Nat.digitChar (year % 10)] = year := by
  simp only [digitsVal, List.foldl_cons, List.foldl_nil,
    digitVal_digitChar (year / 1000) (by omega), digitVal_digitChar (year / 100 % 10) (by omega),
    digitVal_digitChar (year / 10 % 10) (by omega), digitVal_digitChar (year % 10) (by omega)]
  omega

/-- The tail of the text after the day of the month is read back as the
hour, the minute, the second and the year. -/
theorem Parse_stamp (wd m day hh mm ss year : Nat)
    (hwd : wd < 7) (hm : m < 12) (hd1 : 1 ≤ day) (hd2 : day ≤ daysIn (m + 1) year)
    (hhh : hh < 24) (hmm : mm < 60) (hss : ss < 60) (hy : year < 10000) :
    Parse ((shortDayNames.getD wd "").toList ++ ' ' ::
      ((shortMonthNames.getD m "").toList ++ ' ' ::
        ((if day < 10 then [' '] else []) ++ (appendInt (day : Int) 0 ++ ' ' ::
          (appendInt (hh : Int) 2 ++ ':' :: (appendInt (mm : Int) 2 ++ ':' ::
            (appendInt (ss : Int) 2 ++ ' ' :: appendInt (year : Int) 4)))))))
      = Except.ok (Date year (m + 1) day hh mm ss 0) := by
  have hd31 := daysIn_le (m + 1) year
  have eh : hh / 10 * 10 + hh % 10 = hh := by omega
  have em : mm / 10 * 10 + mm % 10 = mm := by omega
  have es : ss / 10 * 10 + ss % 10 = ss := by omega
  have ed : day / 10 * 10 + day % 10 = day := by omega
  have nh : ¬ 24 ≤ hh := by omega
  have nm : ¬ 60 ≤ mm := by omega
  have ns : ¬ 60 ≤ ss := by omega
  have nd : ¬ (day < 1 ∨ day > daysIn (m + 1) (year : Int)) := by omega
  have c1 : ¬ (' ' = '.' ∨ ' ' = ',') := by decide
  rw [appendInt_0 day (by omega), appendInt_2 hh (by omega), appendInt_2 mm (by omega),
    appendInt_2 ss (by omega), appendInt_4 year hy]
  unfold Parse
  simp only [bind, Except.bind, pure, Except.pure, throw, throwThe, MonadExceptOf.throw,
    lookup_dayName wd hwd, skip_space, cutspace_append _ _ (monthName_head m hm),
    lookup_monthName m hm]
  by_cases h10 : day < 10
  · simp only [h10, if_true, List.singleton_append, List.cons_append, List.nil_append,
      cutspace, cutspace_cons _ _ (digitChar_ne_space day h10), std_2_match day h10,
      getnum_one day h10 ' ' isDigit_space, skip_space, skip_colon,
      cutspace_cons _ _ (digitChar_ne_space (hh / 10) (by omega)),
      cutspace_cons _ _ (digitChar_ne_space (year / 1000) (by omega)),
      getnum_two (hh / 10) (hh % 10) (by omega) (by omega),
      getnum_two (mm / 10) (mm % 10) (by omega) (by omega),
      getnum_two (ss / 10) (ss % 10) (by omega) (by omega),
      eh, em, es, nh, nm, ns, if_false, c1, false_and,
      isDigit_digitChar (year / 1000) (by omega), isDigit_digitChar (year / 100 % 10) (by omega),
      isDigit_digitChar (year / 10 % 10) (by omega), isDigit_digitChar (year % 10) (by omega),
      and_self, List.drop_succ_cons, List.drop_zero, ne_eq, not_true_eq_false,
      year_digits_val year hy, nd]
  · have h2 : day / 10 < 10 := by omega
    simp only [h10, if_false, if_true, List.singleton_append, List.cons_append, List.nil_append,
      cutspace, cutspace_cons _ _ (digitChar_ne_space (day / 10) h2), std_2_match (day / 10) h2,
      getnum_two (day / 10) (day % 10) (by omega) (by omega), skip_space, skip_colon,
      cutspace_cons _ _ (digitChar_ne_space (hh / 10) (by omega)),
      cutspace_cons _ _ (digitChar_ne_space (year / 1000) (by omega)),
      getnum_two (hh / 10) (hh % 10) (by omega) (by omega),
      getnum_two (mm / 10) (mm % 10) (by omega) (by omega),
      getnum_two (ss / 10) (ss % 10) (by omega) (by omega),
      ed, eh, em, es, nh, nm, ns, if_false, c1, false_and,
      isDigit_digitChar (year / 1000) (by omega), isDigit_digitChar (year / 100 % 10) (by omega),
      isDigit_digitChar (year / 10 % 10) (by omega), isDigit_digitChar (year % 10) (by omega),
      and_self, List.drop_succ_cons, List.drop_zero, ne_eq, not_true_eq_false,
      year_digits_val year hy, nd]


theorem Format_text (t : Time) :
    t.Format = (shortDayNames.getD
        ((((t.sec + t.offset + unixToInternal) / 86400 + 1) % 7).toNat) "").toList ++ ' ' ::
      ((shortMonthNames.getD ((monthDay (absDate ((t.sec + t.offset + unixToInternal) / 86400)).1
          (absDate ((t.sec + t.offset + unixToInternal) / 86400)).2).1 - 1) "").toList ++ ' ' ::
        ((if (monthDay (absDate ((t.sec + t.offset + unixToInternal) / 86400)).1
            (absDate ((t.sec + t.offset + unixToInternal) / 86400)).2).2 < 10 then [' '] else [])
          ++ (appendInt (((monthDay (absDate ((t.sec + t.offset + unixToInternal) / 86400)).1
            (absDate ((t.sec + t.offset + unixToInternal) / 86400)).2).2 : Nat) : Int) 0 ++ ' ' ::
          (appendInt ((t.sec + t.offset + unixToInternal) % 86400 / 3600) 2 ++ ':' ::
            (appendInt ((t.sec + t.offset + unixToInternal) % 86400 % 3600 / 60) 2 ++ ':' ::
              (appendInt ((t.sec + t.offset + unixToInternal) % 86400 % 60) 2 ++ ' ' ::
                appendInt (absDate ((t.sec + t.offset + unixToInternal) / 86400)).1 4)))))) := by
  simp [Time.Format]


theorem year_of_days (year yday days : Int) (hsum : daysSinceEpoch year + yday = days)
    (hy0 : 0 ≤ yday) (hy1 : yday ≤ 365) (hleap : yday = 365 → isLeap year = true)
    (hd0 : -366 ≤ days) (hd1 : days ≤ 3652058) :
    0 ≤ year ∧ year ≤ 9999 := by
  simp only [daysSinceEpoch] at hsum
  simp only [isLeap_iff] at hleap
  obtain ⟨n400, h400⟩ : ∃ n, (year - 1) / 400 = n := ⟨_, rfl⟩
  obtain ⟨n100, h100⟩ : ∃ n, (year - 1 - 400 * n400) / 100 = n := ⟨_, rfl⟩
  obtain ⟨n4, h4⟩ : ∃ n, (year - 1 - 400 * n400 - 100 * n100) / 4 = n := ⟨_, rfl⟩
  simp only [h400, h100, h4] at hsum
  have b100 : 0 ≤ n100 ∧ n100 ≤ 3 := by omega
  have b4 : 0 ≤ n4 ∧ n4 ≤ 24 := by omega
  have b1 : 0 ≤ year - 1 - 400 * n400 - 100 * n100 - 4 * n4
      ∧ year - 1 - 400 * n400 - 100 * n100 - 4 * n4 ≤ 3 := by omega
  have hn : -1 ≤ n400 ∧ n400 ≤ 24 := by omega
  constructor
  · by_contra hneg
    have : n400 = -1 := by omega
    subst this
    by_cases hy : yday = 365
    · have := hleap hy
      omega
    · omega
  · omega

theorem Date_of_fields (year : Int) (m day hh mm ss : Nat) (hm : m < 12) (days : Int)
    (hdays : daysSinceEpoch year + daysBefore m
      + (if isLeap year = true ∧ m + 1 ≥ 3 then 1 else 0) + ((day : Int) - 1) = days) :
    Date year (m + 1) day hh mm ss 0
      = { sec := days * 86400 + (hh : Int) * 3600 + (mm : Int) * 60 + (ss : Int) - unixToInternal,
          nsec := 0, offset := 0 } := by
  have e1 : (((m + 1 : Nat) : Int) - 1) / 12 = 0 := by omega
  have e2 : ((((m + 1 : Nat) : Int) - 1) % 12).toNat + 1 = m + 1 := by omega
  simp only [Date, e1, e2, Int.add_zero, Nat.add_sub_cancel, hdays, Nat.zero_div, Nat.zero_mod,
    Nat.cast_zero]

/-- What `time.Parse` makes of the text `Format` writes: for every time
whose wall clock falls in the years 0 to 9999, the instant whose UTC wall
clock is the wall clock of the time in its zone, that is the time truncated
to the second and shifted by the zone offset. -/
theorem Parse_Format (t : Time) (h0 : -62167219200 ≤ t.sec + t.offset)
    (h1 : t.sec + t.offset ≤ 253402300799) :
    Parse t.Format = Except.ok { sec := t.sec + t.offset, nsec := 0, offset := 0 } := by
  rw [Format_text]
  obtain ⟨abs, habs⟩ : ∃ abs, t.sec + t.offset + unixToInternal = abs := ⟨_, rfl⟩
  have habs' : t.sec + t.offset = abs - unixToInternal := by omega
  rw [habs, habs']
  have ha0 : -31622400 ≤ abs := by simp only [unixToInternal] at habs; omega
  have ha1 : abs ≤ 315537897599 := by simp only [unixToInternal] at habs; omega
  obtain ⟨days, hdays⟩ : ∃ days, abs / 86400 = days := ⟨_, rfl⟩
  obtain ⟨rem, hrem⟩ : ∃ rem, abs % 86400 = rem := ⟨_, rfl⟩
  rw [hdays, hrem]
  obtain ⟨hsum, hy0, hy1, hleap⟩ := absDate_spec days
  obtain ⟨year, hyear⟩ : ∃ y, (absDate days).1 = y := ⟨_, rfl⟩
  obtain ⟨yday, hyday⟩ : ∃ y, (absDate days).2 = y := ⟨_, rfl⟩
  simp only [hyear, hyday] at hsum hy0 hy1 hleap ⊢
  obtain ⟨hmo0, hmo1, hdd0, hdd1, hmd⟩ := monthDay_spec year yday hy0 hy1 hleap
  obtain ⟨mo, hmo⟩ : ∃ mo, (monthDay year yday).1 = mo := ⟨_, rfl⟩
  obtain ⟨dd, hdd⟩ : ∃ dd, (monthDay year yday).2 = dd := ⟨_, rfl⟩
  simp only [hmo, hdd] at hmo0 hmo1 hdd0 hdd1 hmd ⊢
  obtain ⟨hyr0, hyr1⟩ := year_of_days year yday days hsum hy0 hy1 hleap (by omega) (by omega)
  obtain ⟨m, rfl⟩ : ∃ m, mo = m + 1 := ⟨mo - 1, by omega⟩
  obtain ⟨Y, rfl⟩ : ∃ Y : Nat, year = (Y : Int) := ⟨year.toNat, by omega⟩
  obtain ⟨hh, ehh⟩ : ∃ hh : Nat, rem / 3600 = (hh : Int) := ⟨(rem / 3600).toNat, by omega⟩
  obtain ⟨mm, emm⟩ : ∃ mm : Nat, rem % 3600 / 60 = (mm : Int) :=
    ⟨(rem % 3600 / 60).toNat, by omega⟩
  obtain ⟨ss, ess⟩ : ∃ ss : Nat, rem % 60 = (ss : Int) := ⟨(rem % 60).toNat, by omega⟩
  rw [ehh, emm, ess, Nat.add_sub_cancel]
  rw [Parse_stamp _ m dd hh mm ss Y (by omega) (by omega) hdd0 hdd1 (by omega) (by omega)
    (by omega) (by omega)]
  rw [Date_of_fields (Y : Int) m dd hh mm ss (by omega) days (by
    simp only [Nat.add_sub_cancel] at hmd
    omega)]
  congr 2
  omega


/-! ## C10: the creation time after the format and parse round trip -/

/-- C10, at the failing input. The clock reads 2026-11-01 19:29:00.5 UTC
(Unix second 1793561340) in a zone one hour east of UTC. `Format` writes the
wall clock of the zone, `"Sun Nov  1 20:29:00 2026"`; `time.Parse` reads that
text as UTC, so `notBefore` is Unix second 1793564940: not the current
instant truncated to the second but one hour (the zone offset) after it. (The
same instant read in UTC itself does come back truncated to the second.) The
template passed to `x509.CreateCertificate` carries the shifted time. -/
theorem not_before_shifted_by_zone_offset :
    sampleEnv.Now = { sec := 1793561340, nsec := 500000000, offset := 3600 }
    ∧ sampleEnv.Now.Format = "Sun Nov  1 20:29:00 2026".toList
    ∧ Parse sampleEnv.Now.Format = Except.ok { sec := 1793564940, nsec := 0, offset := 0 }
    ∧ Parse (Time.Format { sec := 1793561340, nsec := 500000000, offset := 0 })
        = Except.ok { sec := 1793561340, nsec := 0, offset := 0 }
    ∧ Time.Equal { sec := 1793564940, nsec := 0, offset := 0 }
        { sec := sampleEnv.Now.sec, nsec := 0, offset := sampleEnv.Now.offset } = false
    ∧ Time.Sub { sec := 1793564940, nsec := 0, offset := 0 }
        { sec := sampleEnv.Now.sec, nsec := 0, offset := sampleEnv.Now.offset } = Hour
    ∧ createCall sampleEnv "127.0.0.1,example.com" sampleKey 42
          { sec := 1793564940, nsec := 0, offset := 0 }
        ∈ (GenCrt sampleEnv "127.0.0.1,example.com" emptyFS).trace
    ∧ (templateFor sampleEnv.ParseIP "127.0.0.1,example.com" 42
          { sec := 1793564940, nsec := 0, offset := 0 }).NotBefore.sec
        = sampleEnv.Now.sec + 3600 := by
  decide

/-- In every run of GenCrt that calls `x509.CreateCertificate` at a time
whose local wall clock falls in the years 0 to 9999, the template's
`NotBefore` is the current instant truncated to the second and shifted by the
local zone offset; it is the truncated current instant exactly when the
offset is zero. -/
theorem not_before_of_run (e : Env) (host : String) (fs : FS)
    (tmpl parent : Certificate) (pub : Option PubKey) (priv : PrivKey)
    (h : Event.createCertificate tmpl parent pub priv ∈ (GenCrt e host fs).trace)
    (h0 : -62167219200 ≤ e.Now.sec + e.Now.offset)
    (h1 : e.Now.sec + e.Now.offset ≤ 253402300799) :
    tmpl.NotBefore = { sec := e.Now.sec + e.Now.offset, nsec := 0, offset := 0 }
    ∧ (tmpl.NotBefore.Equal { sec := e.Now.sec, nsec := 0, offset := e.Now.offset } = true
        ↔ e.Now.offset = 0) := by
  obtain ⟨key, notBefore, serial, -, -, -, htime, -, htmpl, -, -, -⟩ := createCertificate_mem h
  rw [Parse_Format e.Now h0 h1] at htime
  have hnb : tmpl.NotBefore = notBefore := by
    rw [htmpl]
    exact (templateFor_validity e.ParseIP host serial notBefore).1
  have hval : notBefore = { sec := e.Now.sec + e.Now.offset, nsec := 0, offset := 0 } :=
    (Except.ok.inj htime).symm
  rw [hnb, hval]
  refine ⟨rfl, ?_⟩
  simp [Time.Equal]

end chatapi
